import Mathlib

/-!
Verification of the authentication core of the sample service
(`auth.py` / `auth_pkg/`): the token codec (`create_jwt_token` /
`verify_jwt_token`), the API-key registry (`register_api_key` /
`validate_api_key`), the password store (`authenticate_user`), the
authorization guard (`require_auth`) and the sliding-window rate
limiter (`rate_limit`).

Modelling conventions:
* Python `str` values are embedded as `List Char`; the development is
  carried out over printable ASCII strings, where UTF-8 encoding is the
  identity on byte values and `json.dumps` escapes exactly `"` and `\`.
* Byte strings are `List Nat` with the invariant that entries are < 256.
* `datetime` values are embedded as integer epoch seconds;
  `isoformat` / `fromisoformat` are embedded as decimal rendering and
  parsing of that integer, which preserves the round-trip and ordering
  behaviour the source relies on.
* `hmac.new(key, msg, sha256).digest()` is an external primitive whose
  output bytes never influence any control flow in this code base; it is
  passed around as an explicit function parameter.
-/

/-- The 64-character alphabet of Python's `base64.urlsafe_b64encode`. -/
def b64Alphabet : List Char :=
  [ 'A', 'B', 'C', 'D', 'E', 'F', 'G', 'H', 'I', 'J', 'K', 'L', 'M',
    'N', 'O', 'P', 'Q', 'R', 'S', 'T', 'U', 'V', 'W', 'X', 'Y', 'Z',
    'a', 'b', 'c', 'd', 'e', 'f', 'g', 'h', 'i', 'j', 'k', 'l', 'm',
    'n', 'o', 'p', 'q', 'r', 's', 't', 'u', 'v', 'w', 'x', 'y', 'z',
    '0', '1', '2', '3', '4', '5', '6', '7', '8', '9', '-', '_' ]

/-- The alphabet character for a 6-bit value. -/
def b64Char (i : Nat) : Char := b64Alphabet.getD i '_'

/-- The 6-bit value of an alphabet character. -/
def b64Val (c : Char) : Option Nat :=
  if c ∈ b64Alphabet then some (b64Alphabet.indexOf c) else none

/-- `base64.urlsafe_b64encode`: three input bytes become four alphabet
characters; a short final group is completed with `=` padding. -/
def b64encodePadded : List Nat → List Char
  | [] => []
  | [a] => [b64Char (a / 4), b64Char (a % 4 * 16), '=', '=']
  | [a, b] => [b64Char (a / 4), b64Char (a % 4 * 16 + b / 16), b64Char (b % 16 * 4), '=']
  | a :: b :: c :: rest =>
      b64Char (a / 4) :: b64Char (a % 4 * 16 + b / 16) ::
        b64Char (b % 16 * 4 + c / 64) :: b64Char (c % 64) :: b64encodePadded rest

/-- `base64.urlsafe_b64decode` on correctly padded input: groups of four
characters are decoded to three bytes, with `=` padding marking a short
final group; anything else is a decode error (`None`). -/
def b64decodeGroups : List Char → Option (List Nat)
  | [] => some []
  | c1 :: c2 :: c3 :: c4 :: rest =>
      if c3 = '=' then
        if c4 = '=' ∧ rest = [] then
          match b64Val c1, b64Val c2 with
          | some v1, some v2 => some [v1 * 4 + v2 / 16]
          | _, _ => none
        else none
      else if c4 = '=' then
        if rest = [] then
          match b64Val c1, b64Val c2, b64Val c3 with
          | some v1, some v2, some v3 =>
              some [v1 * 4 + v2 / 16, v2 % 16 * 16 + v3 / 4]
          | _, _, _ => none
        else none
      else
        match b64Val c1, b64Val c2, b64Val c3, b64Val c4, b64decodeGroups rest with
        | some v1, some v2, some v3, some v4, some bs =>
            some ((v1 * 4 + v2 / 16) :: (v2 % 16 * 16 + v3 / 4) :: (v3 % 4 * 64 + v4) :: bs)
        | _, _, _, _, _ => none
  | _ => none

/-- Python `str.rstrip` with argument the padding character `=`. -/
def rstripEq : List Char → List Char
  | [] => []
  | c :: cs =>
      match rstripEq cs with
      | [] => if c = '=' then [] else [c]
      | r => c :: r

/-- The padding restoration in `verify_jwt_token`:
`padding = 4 - len(s) % 4; if padding != 4: s += '=' * padding`. -/
def restorePad (s : List Char) : List Char :=
  if 4 - s.length % 4 ≠ 4 then s ++ List.replicate (4 - s.length % 4) '=' else s

/-- Python `str.split` with separator the delimiter character `.`. -/
def splitOnDot : List Char → List (List Char)
  | [] => [[]]
  | c :: cs =>
      match splitOnDot cs with
      | [] => [[c]]
      | p :: ps => if c = '.' then [] :: p :: ps else (c :: p) :: ps

/-- Printable ASCII, the string domain of this development: UTF-8 is the
identity on it and `json.dumps` escapes exactly `"` and `\` within it. -/
def PlainChar (c : Char) : Prop := 32 ≤ c.toNat ∧ c.toNat ≤ 126

instance (c : Char) : Decidable (PlainChar c) := by
  unfold PlainChar
  infer_instance

/-- A string of printable ASCII characters. -/
def PlainStr (s : List Char) : Prop := ∀ c ∈ s, PlainChar c

instance (s : List Char) : Decidable (PlainStr s) := by
  unfold PlainStr
  infer_instance

/-- Python `str.encode()` (UTF-8), restricted to ASCII, where it is the
code-point map. -/
def strBytes (s : List Char) : List Nat := s.map Char.toNat

/-- UTF-8 decoding of a byte string, restricted to ASCII bytes; other
byte strings are treated as decode failures. -/
def bytesToChars? (bs : List Nat) : Option (List Char) :=
  if bs.all (fun b => b < 128) then some (bs.map Char.ofNat) else none

/-- JSON whitespace skipped by `json.loads`. -/
def skipWs (l : List Char) : List Char :=
  l.dropWhile (fun c => c = ' ' ∨ c = '\t' ∨ c = '\n' ∨ c = '\r')

/-- A JSON value of the shapes this code base produces and reads:
strings, arrays of strings, and integers. -/
inductive PVal where
  | str : List Char → PVal
  | arr : List (List Char) → PVal
  | int : Int → PVal
deriving DecidableEq, Repr

/-- The escaping `json.dumps` applies inside a printable-ASCII string
literal: exactly `"` and `\` gain a backslash. -/
def jsonEscape : List Char → List Char
  | [] => []
  | c :: cs => if c = '"' ∨ c = '\\' then '\\' :: c :: jsonEscape cs else c :: jsonEscape cs

/-- A JSON string literal as `json.dumps` renders it. -/
def jsonStrLit (s : List Char) : List Char := '"' :: (jsonEscape s ++ ['"'])

/-- `json.dumps` list joining with its default item separator. -/
def joinCommaSp : List (List Char) → List Char
  | [] => []
  | [x] => x
  | x :: xs => x ++ ',' :: ' ' :: joinCommaSp xs

/-- A JSON array of string literals as `json.dumps` renders it. -/
def jsonStrArr (ss : List (List Char)) : List Char :=
  '[' :: (joinCommaSp (ss.map jsonStrLit) ++ [']'])

/-- One `"key": value` member as `json.dumps` renders it. -/
def jsonMember (k v : List Char) : List Char := jsonStrLit k ++ ':' :: ' ' :: v

/-- The body of the string-literal parser, positioned after the opening
quote; unescapes `\"` and `\\` and stops at the closing quote. -/
def parseStrBody : List Char → Option (List Char × List Char)
  | [] => none
  | c :: rest =>
      if c = '"' then some ([], rest)
      else if c = '\\' then
        match rest with
        | [] => none
        | e :: rest2 =>
            if e = '"' ∨ e = '\\' then
              (parseStrBody rest2).map (fun p => (e :: p.1, p.2))
            else none
      else (parseStrBody rest).map (fun p => (c :: p.1, p.2))

/-- Parse a JSON string literal. -/
def parseStrLit : List Char → Option (List Char × List Char)
  | [] => none
  | c :: rest => if c = '"' then parseStrBody rest else none

/-- Digit-string to number. -/
def digitsToNat (ds : List Char) : Nat :=
  ds.foldl (fun a c => a * 10 + (c.toNat - 48)) 0

/-- Parse a JSON integer literal. -/
def parseIntLit (l : List Char) : Option (Int × List Char) :=
  match l with
  | '-' :: rest =>
      let ds := rest.takeWhile Char.isDigit
      if ds = [] then none
      else some (-(digitsToNat ds : Int), rest.dropWhile Char.isDigit)
  | rest =>
      let ds := rest.takeWhile Char.isDigit
      if ds = [] then none
      else some ((digitsToNat ds : Int), rest.dropWhile Char.isDigit)

/-- Parse the items of a non-empty JSON array of strings, one item per
unit of fuel. -/
def parseStrItems : Nat → List Char → Option (List (List Char) × List Char)
  | 0, _ => none
  | fuel + 1, l =>
      match parseStrLit (skipWs l) with
      | none => none
      | some (s, r) =>
          match skipWs r with
          | [] => none
          | c :: r2 =>
              if c = ',' then (parseStrItems fuel r2).map (fun p => (s :: p.1, p.2))
              else if c = ']' then some ([s], r2)
              else none

/-- Parse a JSON value of the supported shapes. -/
def parsePVal (l : List Char) : Option (PVal × List Char) :=
  match skipWs l with
  | [] => none
  | c :: rest =>
      if c = '"' then (parseStrBody rest).map (fun p => (PVal.str p.1, p.2))
      else if c = '[' then
        match skipWs rest with
        | [] => none
        | d :: r2 =>
            if d = ']' then some (PVal.arr [], r2)
            else (parseStrItems (d :: r2).length (d :: r2)).map (fun p => (PVal.arr p.1, p.2))
      else (parseIntLit (c :: rest)).map (fun p => (PVal.int p.1, p.2))

/-- Parse the members of a non-empty JSON object, one member per unit of
fuel. -/
def parseMembers : Nat → List Char → Option (List (List Char × PVal) × List Char)
  | 0, _ => none
  | fuel + 1, l =>
      match parseStrLit (skipWs l) with
      | none => none
      | some (k, r) =>
          match skipWs r with
          | [] => none
          | c :: r2 =>
              if c = ':' then
                match parsePVal r2 with
                | none => none
                | some (v, r3) =>
                    match skipWs r3 with
                    | [] => none
                    | d :: r4 =>
                        if d = ',' then
                          (parseMembers fuel r4).map (fun p => ((k, v) :: p.1, p.2))
                        else if d = '}' then some ([(k, v)], r4)
                        else none
              else none

/-- `json.loads` of a whole document that must be an object, restricted to
the supported value shapes; the entire input must be consumed. -/
def parseJsonObj (l : List Char) : Option (List (List Char × PVal)) :=
  match skipWs l with
  | [] => none
  | c :: rest =>
      if c = '{' then
        match skipWs rest with
        | [] => none
        | d :: r2 =>
            if d = '}' then (if skipWs r2 = [] then some [] else none)
            else
              match parseMembers (d :: r2).length (d :: r2) with
              | some (ms, r3) => if skipWs r3 = [] then some ms else none
              | none => none
      else none

/-- Python dict indexing built from parsed members: on duplicate keys the
last member wins, as in `json.loads`. -/
def pyDictGet (ms : List (List Char × PVal)) (k : List Char) : Option PVal :=
  ms.reverse.lookup k

/-- The ten decimal digit characters. -/
def decDigits : List Char := ['0', '1', '2', '3', '4', '5', '6', '7', '8', '9']

/-- The digit character of a value below ten. -/
def decDigit (d : Nat) : Char := decDigits.getD d '0'

/-- Decimal rendering of a natural number, driven by a fuel argument so
that it evaluates by structural recursion (any fuel above the number
suffices). -/
def natToDecAux : Nat → Nat → List Char
  | 0, _ => []
  | fuel + 1, n =>
      if n < 10 then [decDigit n]
      else natToDecAux fuel (n / 10) ++ [decDigit (n % 10)]

/-- Decimal rendering of a natural number. -/
def natToDec (n : Nat) : List Char := natToDecAux (n + 1) n

/-- `datetime.isoformat`, embedded as decimal rendering of the epoch
second count. -/
def intToDec (t : Int) : List Char :=
  if t < 0 then '-' :: natToDec t.natAbs else natToDec t.toNat

/-- `datetime.fromisoformat`, embedded as strict decimal parsing of the
whole string; anything else is a `ValueError` (`none`). -/
def parseIso (s : List Char) : Option Int :=
  match s with
  | [] => none
  | c :: ds =>
      if c = '-' then
        if ds ≠ [] ∧ ds.all Char.isDigit then some (-(digitsToNat ds : Int)) else none
      else if (c :: ds).all Char.isDigit then some ((digitsToNat (c :: ds) : Int)) else none

/-- Python `str.replace` of the character `Z` by the suffix `+00:00`, as
applied before `fromisoformat`. -/
def replaceZ : List Char → List Char
  | [] => []
  | c :: cs =>
      if c = 'Z' then '+' :: '0' :: '0' :: ':' :: '0' :: '0' :: replaceZ cs
      else c :: replaceZ cs

/-! ### Token codec (`auth_pkg/jwt.py`, duplicated in `auth.py`) -/

def kUser : List Char := ("user").data

def kRoles : List Char := ("roles").data

def kExp : List Char := ("exp").data

def kIat : List Char := ("iat").data

/-- The default role list `['user']`. -/
def defaultRoles : List (List Char) := [("user").data]

/-- Python `roles or ['user']`: `None` and the empty list are falsy. -/
def pyOrRoles (roles : Option (List (List Char))) : List (List Char) :=
  match roles with
  | none => defaultRoles
  | some [] => defaultRoles
  | some rs => rs

/-- The member list of the payload dict as `json.dumps` renders it, in
its insertion order `user, roles, exp, iat`. -/
def payloadMembers (user : List Char) (roles : List (List Char)) (expS iatS : List Char) :
    List Char :=
  jsonMember kUser (jsonStrLit user) ++ ',' :: ' ' ::
    (jsonMember kRoles (jsonStrArr roles) ++ ',' :: ' ' ::
      (jsonMember kExp (jsonStrLit expS) ++ ',' :: ' ' ::
        jsonMember kIat (jsonStrLit iatS)))

/-- `json.dumps` of the payload dict
`{'user': ..., 'roles': ..., 'exp': ..., 'iat': ...}`. -/
def payloadJson (user : List Char) (roles : List (List Char)) (expS iatS : List Char) :
    List Char :=
  '{' :: (payloadMembers user roles expS iatS ++ ['}'])

/-- `json.dumps` of the header dict `{'alg': 'HS256', 'typ': 'JWT'}`. -/
def headerJson : List Char :=
  '{' :: (jsonMember (("alg").data) (jsonStrLit (("HS256").data)) ++ ',' :: ' ' ::
    jsonMember (("typ").data) (jsonStrLit (("JWT").data))) ++ ['}']

/-- `base64.urlsafe_b64encode(..).decode().rstrip('=')`, the segment
encoding used for header, payload and signature. -/
def b64seg (bs : List Nat) : List Char := rstripEq (b64encodePadded bs)

/-- `create_jwt_token`. `hmacSha256` stands for
`hmac.new(key, msg, hashlib.sha256).digest()`, an external primitive whose
output never influences control flow here; `secret` is `JWT_SECRET`,
`expirationHours` is `JWT_EXPIRATION_HOURS` and `now` is
`datetime.utcnow()` in epoch seconds. -/
def create_jwt_token (hmacSha256 : List Nat → List Nat → List Nat) (secret : List Nat)
    (expirationHours : Int) (now : Int) (user : List Char)
    (roles : Option (List (List Char))) : List Char :=
  let expTime := now + expirationHours * 3600
  let payload := payloadJson user (pyOrRoles roles) (intToDec expTime) (intToDec now)
  let encodedHeader := b64seg (strBytes headerJson)
  let encodedPayload := b64seg (strBytes payload)
  let message := encodedHeader ++ '.' :: encodedPayload
  let signature := hmacSha256 secret (strBytes message)
  let encodedSignature := b64seg signature
  encodedHeader ++ '.' :: (encodedPayload ++ '.' :: encodedSignature)

/-- The dict `verify_jwt_token` and `validate_api_key` return on success:
`{'user': .., 'roles': .., 'authenticated': True}`. `user` is
`payload.get('user')`, hence optional; `roles` is whatever JSON value the
payload carried. -/
structure AuthInfo where
  user : Option PVal
  roles : PVal
  authenticated : Bool
deriving DecidableEq, Repr

/-- The success dict built at the end of `verify_jwt_token`. -/
def jwtAuthInfo (payload : List (List Char × PVal)) : AuthInfo :=
  { user := pyDictGet payload kUser
    roles := (pyDictGet payload kRoles).getD (PVal.arr defaultRoles)
    authenticated := true }

/-- `verify_jwt_token(token)` at current time `now`. Exceptions of the
`try` block (decode, JSON, key and timestamp errors) all surface as
`None`. The signature segment is split off but never re-examined. -/
def verify_jwt_token (now : Int) (token : List Char) : Option AuthInfo :=
  if token = [] then none
  else
    match splitOnDot token with
    | [_, encodedPayload, _] =>
        match b64decodeGroups (restorePad encodedPayload) with
        | none => none
        | some payloadBytes =>
            match bytesToChars? payloadBytes with
            | none => none
            | some payloadChars =>
                match parseJsonObj payloadChars with
                | none => none
                | some payload =>
                    match pyDictGet payload kExp with
                    | none => none
                    | some (PVal.str s) =>
                        match parseIso (replaceZ s) with
                        | none => none
                        | some e => if now > e then none else some (jwtAuthInfo payload)
                    | some (PVal.int e) => if now > e then none else some (jwtAuthInfo payload)
                    | some (PVal.arr _) => none
    | _ => none

/-! ### Authorization guard (`require_auth`) -/

/-- The identity context the decorator stores in `flask.g`:
`current_user`, `user_roles` (the Python list `[]` when unauthenticated)
and `authenticated`. -/
structure GCtx where
  currentUser : Option PVal
  userRoles : PVal
  authenticated : Bool
deriving DecidableEq, Repr

/-- Outcome of the guard: an early JSON rejection with its HTTP status, or
admission of the request with the stored identity context. -/
inductive AuthOutcome where
  | denied : Nat → AuthOutcome
  | granted : GCtx → AuthOutcome
deriving DecidableEq, Repr

/-- Python `role in user_roles` for the value shapes `roles` can take:
list membership on a list, substring on a string; on an integer the
source would raise `TypeError` (unreachable for values this code base
produces), modelled as `false`. -/
def pyIn (needle : List Char) (hay : PVal) : Bool :=
  match hay with
  | PVal.arr ss => ss.contains needle
  | PVal.str s => decide (needle <:+: s)
  | PVal.int _ => false

/-- `require_auth(api_key_required, jwt_required, roles)` as a decision
function. `validateKey` and `verifyTok` are the two credential checkers
the decorator calls (`validate_api_key` and `verify_jwt_token`);
`xApiKeyHeader` is the optional `X-API-Key` header and `authHeader` the
`Authorization` header (defaulted to the empty string by the source). -/
def require_auth (validateKey : Option (List Char) → Option AuthInfo)
    (verifyTok : List Char → Option AuthInfo)
    (apiKeyRequired jwtRequired : Bool) (roles : List (List Char))
    (xApiKeyHeader : Option (List Char)) (authHeader : List Char) : AuthOutcome :=
  let roleAndGrant : Option AuthInfo → AuthOutcome := fun authInfo =>
    if roles ≠ [] ∧ authInfo.isSome then
      let userRoles := match authInfo with
        | some info => info.roles
        | none => PVal.arr []
      if roles.any (fun role => pyIn role userRoles) then
        AuthOutcome.granted
          { currentUser := (authInfo.map AuthInfo.user).join
            userRoles := userRoles
            authenticated := authInfo.isSome }
      else AuthOutcome.denied 403
    else
      AuthOutcome.granted
        { currentUser := (authInfo.map AuthInfo.user).join
          userRoles := match authInfo with
            | some info => info.roles
            | none => PVal.arr []
          authenticated := authInfo.isSome }
  let finalCheck : Option AuthInfo → AuthOutcome := fun authInfo =>
    if (apiKeyRequired ∨ jwtRequired) ∧ authInfo.isNone then AuthOutcome.denied 401
    else roleAndGrant authInfo
  let jwtStep : Option AuthInfo → AuthOutcome := fun authInfo =>
    if jwtRequired ∧ authInfo.isNone then
      match authHeader with
      | 'B' :: 'e' :: 'a' :: 'r' :: 'e' :: 'r' :: ' ' :: token =>
          match verifyTok token with
          | none => AuthOutcome.denied 401
          | some info => finalCheck (some info)
      | _ => AuthOutcome.denied 401
    else finalCheck authInfo
  if apiKeyRequired then
    match validateKey xApiKeyHeader with
    | none => AuthOutcome.denied 401
    | some info => jwtStep (some info)
  else jwtStep none

/-! ### API key registry (`auth_pkg/api_keys.py`) -/

/-- A value of the in-memory `API_KEYS` dict:
`{user, roles, created_at}`. -/
structure MemKeyRecord where
  user : List Char
  roles : List (List Char)
  createdAt : Int
deriving DecidableEq, Repr

/-- A row of the durable `api_keys` relation. -/
structure DbKeyRow where
  apiKey : List Char
  userName : List Char
  roles : List (List Char)
  isActive : Bool
  expiresAt : Option Int
  lastUsedAt : Option Int
deriving DecidableEq, Repr

/-- The registry's state: the in-memory `API_KEYS` dict plus the optional
durable store (`None` models an unset `_db_pool`). -/
structure ApiKeyState where
  memKeys : List (List Char × MemKeyRecord)
  db : Option (List DbKeyRow)
deriving DecidableEq, Repr

/-- Python dict assignment `m[k] = v`: overwrite in place or append. -/
def dictSet {β : Type} (m : List (List Char × β)) (k : List Char) (v : β) :
    List (List Char × β) :=
  if m.any (fun p => p.1 == k) then
    m.map (fun p => if p.1 == k then (k, v) else p)
  else m ++ [(k, v)]

/-- `get_api_key_from_db`: the row for the key, provided `is_active` is
truthy; otherwise `None`. -/
def get_api_key_from_db (st : ApiKeyState) (key : List Char) : Option DbKeyRow :=
  match st.db with
  | none => none
  | some rows =>
      match rows.find? (fun r => r.apiKey == key) with
      | some row => if row.isActive then some row else none
      | none => none

/-- `update_api_key_last_used`: best-effort `last_used_at` bump. -/
def update_api_key_last_used (st : ApiKeyState) (key : List Char) (now : Int) :
    ApiKeyState :=
  match st.db with
  | none => st
  | some rows =>
      { st with db := some (rows.map (fun r =>
          if r.apiKey == key then { r with lastUsedAt := some now } else r)) }

/-- `validate_api_key`: the in-memory dict is consulted first and returns
unconditionally on a hit; only the durable-store path checks `is_active`
and `expires_at` (the stored timestamp is embedded directly as epoch
seconds). Returns the auth dict and the (possibly `last_used_at`-updated)
state. -/
def validate_api_key (st : ApiKeyState) (now : Int) (apiKey : Option (List Char)) :
    Option AuthInfo × ApiKeyState :=
  match apiKey with
  | none => (none, st)
  | some key =>
      if key = [] then (none, st)
      else
        match st.memKeys.lookup key with
        | some kd =>
            (some { user := some (PVal.str kd.user), roles := PVal.arr kd.roles,
                    authenticated := true }, st)
        | none =>
            if st.db.isSome then
              match get_api_key_from_db st key with
              | some kd =>
                  if kd.isActive then
                    match kd.expiresAt with
                    | some e =>
                        if now > e then (none, st)
                        else
                          (some { user := some (PVal.str kd.userName),
                                  roles := PVal.arr kd.roles, authenticated := true },
                            update_api_key_last_used st key now)
                    | none =>
                        (some { user := some (PVal.str kd.userName),
                                roles := PVal.arr kd.roles, authenticated := true },
                          update_api_key_last_used st key now)
                  else (none, st)
              | none => (none, st)
            else (none, st)

/-- `register_api_key` for a freshly generated key `newKey`
(`secrets.token_urlsafe(32)` is an external randomness source, so the
generated key is a parameter): stores the record in the in-memory dict
and, when a durable store is configured, inserts it there with
`ON CONFLICT (api_key) DO NOTHING`. -/
def register_api_key (st : ApiKeyState) (now : Int) (newKey : List Char)
    (user : List Char) (roles : Option (List (List Char))) : ApiKeyState :=
  let rec0 : MemKeyRecord := { user := user, roles := pyOrRoles roles, createdAt := now }
  let st1 := { st with memKeys := dictSet st.memKeys newKey rec0 }
  match st1.db with
  | none => st1
  | some rows =>
      if rows.any (fun r => r.apiKey == newKey) then st1
      else
        let row : DbKeyRow :=
          { apiKey := newKey, userName := user, roles := pyOrRoles roles,
            isActive := true, expiresAt := none, lastUsedAt := none }
        { st1 with db := some (rows ++ [row]) }

/-- Modelled from the spec: `revoke(key)` exists only in the spec
(`sets is_active=false; idempotent`), not in the sources under `src/`.
Following the spec's words it marks the key's record in the durable store
inactive; in-memory records carry no active flag to clear. -/
def revoke_api_key (st : ApiKeyState) (key : List Char) : ApiKeyState :=
  match st.db with
  | none => st
  | some rows =>
      { st with db := some (rows.map (fun r =>
          if r.apiKey == key then { r with isActive := false } else r)) }

/-! ### Password store (`auth_pkg/users.py`) -/

/-- A `DEMO_USERS` value: `{password_hash, roles}`. -/
structure UserRecord where
  passwordHash : List Char
  roles : List (List Char)
deriving DecidableEq, Repr

/-- `get_user`: dict lookup in `DEMO_USERS`. -/
def get_user (demoUsers : List (List Char × UserRecord)) (username : List Char) :
    Option UserRecord :=
  demoUsers.lookup username

/-- `authenticate_user`. `checkpw` stands for the external
`bcrypt.checkpw` as wrapped by `verify_password` (whose
`try/except → False` folds library failures into the Boolean). Unknown
users return `None` before any hash check; a failed hash check also
returns `None`. -/
def authenticate_user (checkpw : List Char → List Char → Bool)
    (demoUsers : List (List Char × UserRecord)) (username password : List Char) :
    Option (List Char × List (List Char)) :=
  match get_user demoUsers username with
  | none => none
  | some user =>
      if checkpw password user.passwordHash then some (username, user.roles) else none

/-- How many bcrypt checks (`verify_password` calls) `authenticate_user`
performs, read off its control flow: none for an unknown user, exactly
one otherwise. -/
def authenticate_user_checkpw_calls (demoUsers : List (List Char × UserRecord))
    (username : List Char) : Nat :=
  match get_user demoUsers username with
  | none => 0
  | some _ => 1

/-- `_init_demo_users`: the seeded store, with the external salted
`bcrypt.hashpw ∘ gensalt` passed as `hashpw`. -/
def _init_demo_users (hashpw : List Char → List Char) :
    List (List Char × UserRecord) :=
  [ (("admin").data,
      { passwordHash := hashpw (("admin123").data),
        roles := [("admin").data, ("user").data] }),
    (("user").data,
      { passwordHash := hashpw (("user123").data),
        roles := [("user").data] }) ]

/-! ### Rate limiter (`rate_limit`) -/

/-- The limiter's verdict: admission, or a 429 rejection advertising
`retry_after = window_seconds`. -/
inductive RLDecision where
  | allowed : RLDecision
  | denied : ℚ → RLDecision
deriving DecidableEq

/-- The `_rate_limit_storage` map from limiter key to its timestamp
list. Timestamps (`time.time()` values) are embedded as rationals. -/
def RLState : Type := List (List Char × List ℚ)

/-- One admission check of the `rate_limit` decorator for `key` at time
`now`: purge timestamps `≤ now - window_seconds` (the source keeps
`ts > window_start`), store the purged list, then deny without recording
when `max_requests` many remain, else record `now` and allow. The
source's re-initialisation of a missing key just before the append is a
no-op (the key was assigned the purged list two statements earlier) and
has no counterpart here. -/
def rate_limit_allow (maxRequests : Nat) (windowSeconds : ℚ) (st : RLState)
    (key : List Char) (now : ℚ) : RLDecision × RLState :=
  let windowStart := now - windowSeconds
  let purged := ((List.lookup key st).getD []).filter (fun ts => windowStart < ts)
  let st1 := dictSet st key purged
  if maxRequests ≤ purged.length then (RLDecision.denied windowSeconds, st1)
  else (RLDecision.allowed, dictSet st1 key (purged ++ [now]))

/-- Folding a call sequence through the limiter, for state invariants. -/
def rate_limit_run (maxRequests : Nat) (windowSeconds : ℚ) :
    RLState → List (List Char × ℚ) → RLState
  | st, [] => st
  | st, (k, t) :: calls =>
      rate_limit_run maxRequests windowSeconds
        (rate_limit_allow maxRequests windowSeconds st k t).2 calls

/-! ### Concrete fixtures for evaluating the model on sample inputs -/

/-- A concrete stand-in for the external HMAC-SHA256 digest, used to
evaluate the token pipeline on sample inputs (its value is irrelevant to
every verification outcome, since `verify_jwt_token` never recomputes
it). -/
def hmacConst : List Nat → List Nat → List Nat := fun _ _ => List.replicate 32 7

/-- A concrete signing secret for sample evaluations. -/
def secretConst : List Nat := strBytes (("demo-secret").data)

/-- A sample token issued at time 1000 to `bob` with the single role
`user`. -/
def demoTokenUser : List Char :=
  create_jwt_token hmacConst secretConst 24 1000 (("bob").data) (some [("user").data])

/-- A sample token issued at time 1000 to `alice` with roles
`admin, user`. -/
def demoTokenAdmin : List Char :=
  create_jwt_token hmacConst secretConst 24 1000 (("alice").data)
    (some [("admin").data, ("user").data])

/-- Replace the first character of a string by a different one (a
one-character mutation). -/
def flipFirst : List Char → List Char
  | [] => []
  | c :: cs => (if c = 'A' then 'B' else 'A') :: cs

/-- Mutate one character of a token's signature segment, leaving the
header and payload segments untouched. -/
def mutateSigSeg (tok : List Char) : List Char :=
  (splitOnDot tok).getD 0 [] ++ '.' ::
    ((splitOnDot tok).getD 1 [] ++ '.' :: flipFirst ((splitOnDot tok).getD 2 []))

/-! ### Theorems and supporting lemmas -/

theorem b64Char_mem (i : Nat) : b64Char i ∈ b64Alphabet := by
  by_cases h : i < 64
  · revert i
    decide
  · simp only [b64Char]
    rw [List.getD_eq_default]
    · decide
    · have hl : b64Alphabet.length = 64 := by decide
      omega

theorem b64Char_ne_eq (i : Nat) : b64Char i ≠ '=' := by
  have h := b64Char_mem i
  intro hc
  rw [hc] at h
  revert h
  decide

theorem b64Char_ne_dot (i : Nat) : b64Char i ≠ '.' := by
  have h := b64Char_mem i
  intro hc
  rw [hc] at h
  revert h
  decide

theorem b64Val_b64Char (i : Nat) (h : i < 64) : b64Val (b64Char i) = some i := by
  revert i
  decide

theorem b64decode_encode : ∀ bs : List Nat, (∀ b ∈ bs, b < 256) →
    b64decodeGroups (b64encodePadded bs) = some bs
  | [], _ => rfl
  | [a], h => by
      have h1 : a < 256 := h a (by simp)
      simp only [b64encodePadded, b64decodeGroups]
      rw [b64Val_b64Char _ (by omega), b64Val_b64Char _ (by omega)]
      simp only [if_pos rfl, and_self, if_true]
      simp
      omega
  | [a, b], h => by
      have h1 : a < 256 := h a (by simp)
      have h2 : b < 256 := h b (by simp)
      simp only [b64encodePadded, b64decodeGroups]
      rw [b64Val_b64Char _ (by omega), b64Val_b64Char _ (by omega),
        b64Val_b64Char _ (by omega)]
      simp only [if_neg (b64Char_ne_eq _), if_pos rfl, if_true]
      simp
      omega
  | a :: b :: c :: d :: rest, h => by
      have h1 : a < 256 := h a (by simp)
      have h2 : b < 256 := h b (by simp)
      have h3 : c < 256 := h c (by simp)
      have ih := b64decode_encode (d :: rest) (fun x hx => h x (by simp [hx]))
      simp only [b64encodePadded, b64decodeGroups]
      rw [b64Val_b64Char _ (by omega), b64Val_b64Char _ (by omega),
        b64Val_b64Char _ (by omega), b64Val_b64Char _ (by omega)]
      simp only [if_neg (b64Char_ne_eq _)]
      rw [ih]
      simp
      omega
  | [a, b, c], h => by
      have h1 : a < 256 := h a (by simp)
      have h2 : b < 256 := h b (by simp)
      have h3 : c < 256 := h c (by simp)
      simp only [b64encodePadded, b64decodeGroups]
      rw [b64Val_b64Char _ (by omega), b64Val_b64Char _ (by omega),
        b64Val_b64Char _ (by omega), b64Val_b64Char _ (by omega)]
      simp only [if_neg (b64Char_ne_eq _)]
      simp [b64decodeGroups]
      omega

theorem eq_b64Char_false (i : Nat) : ('=' : Char) ≠ b64Char i :=
  Ne.symm (b64Char_ne_eq i)

theorem dot_b64Char_false (i : Nat) : ('.' : Char) ≠ b64Char i :=
  Ne.symm (b64Char_ne_dot i)

theorem rstripEq_append (g t : List Char) (hg : '=' ∉ g) :
    rstripEq (g ++ t) = g ++ rstripEq t := by
  induction g with
  | nil => simp
  | cons c g ih =>
      have hc : c ≠ '=' := fun hcc => hg (by simp [hcc])
      have hg2 : '=' ∉ g := fun hm => hg (by simp [hm])
      simp only [List.cons_append, rstripEq, List.append_eq]
      rw [ih hg2]
      cases h : g ++ rstripEq t with
      | nil => simp [hc]
      | cons x xs => simp

theorem rstripEq_eqs : rstripEq ['=', '='] = [] := by decide

theorem rstripEq_eq1 : rstripEq ['='] = [] := by decide

theorem restorePad_cons4 (c1 c2 c3 c4 : Char) (s : List Char) :
    restorePad (c1 :: c2 :: c3 :: c4 :: s) = c1 :: c2 :: c3 :: c4 :: restorePad s := by
  simp only [restorePad, List.length_cons]
  have hm : (s.length + 1 + 1 + 1 + 1) % 4 = s.length % 4 := by omega
  rw [hm]
  split <;> simp

theorem restorePad_rstripEq_encode : ∀ bs : List Nat,
    restorePad (rstripEq (b64encodePadded bs)) = b64encodePadded bs
  | [] => by decide
  | [a] => by
      have hg : '=' ∉ [b64Char (a / 4), b64Char (a % 4 * 16)] := by
        simp [eq_b64Char_false]
      have hsplit : b64encodePadded [a] =
          [b64Char (a / 4), b64Char (a % 4 * 16)] ++ ['=', '='] := rfl
      rw [hsplit, rstripEq_append _ _ hg, rstripEq_eqs]
      simp [restorePad, List.replicate]
  | [a, b] => by
      have hg : '=' ∉ [b64Char (a / 4), b64Char (a % 4 * 16 + b / 16),
          b64Char (b % 16 * 4)] := by
        simp [eq_b64Char_false]
      have hsplit : b64encodePadded [a, b] =
          [b64Char (a / 4), b64Char (a % 4 * 16 + b / 16), b64Char (b % 16 * 4)] ++ ['='] := rfl
      rw [hsplit, rstripEq_append _ _ hg, rstripEq_eq1]
      simp [restorePad, List.replicate]
  | a :: b :: c :: d :: rest => by
      have ih := restorePad_rstripEq_encode (d :: rest)
      have hg : '=' ∉ [b64Char (a / 4), b64Char (a % 4 * 16 + b / 16),
          b64Char (b % 16 * 4 + c / 64), b64Char (c % 64)] := by
        simp [eq_b64Char_false]
      have hsplit : b64encodePadded (a :: b :: c :: d :: rest) =
          [b64Char (a / 4), b64Char (a % 4 * 16 + b / 16),
            b64Char (b % 16 * 4 + c / 64), b64Char (c % 64)] ++
            b64encodePadded (d :: rest) := rfl
      rw [hsplit, rstripEq_append _ _ hg]
      simp only [List.cons_append, List.nil_append]
      rw [restorePad_cons4, ih]
  | [a, b, c] => by
      have hg : '=' ∉ [b64Char (a / 4), b64Char (a % 4 * 16 + b / 16),
          b64Char (b % 16 * 4 + c / 64), b64Char (c % 64)] := by
        simp [eq_b64Char_false]
      have hsplit : b64encodePadded [a, b, c] =
          [b64Char (a / 4), b64Char (a % 4 * 16 + b / 16),
            b64Char (b % 16 * 4 + c / 64), b64Char (c % 64)] ++ [] := by simp [b64encodePadded]
      rw [hsplit, rstripEq_append _ _ hg]
      simp only [List.cons_append, List.nil_append]
      rw [show rstripEq [] = [] from rfl, restorePad_cons4]
      rfl

theorem mem_rstripEq : ∀ (l : List Char) (c : Char), c ∈ rstripEq l → c ∈ l
  | [], c => by simp [rstripEq]
  | x :: xs, c => by
      have ih := mem_rstripEq xs c
      simp only [rstripEq]
      cases h : rstripEq xs with
      | nil =>
          split
        <;> intro hc <;> simp at hc <;> simp [hc]
      | cons y ys =>
          intro hc
          rcases List.mem_cons.mp hc with rfl | hm
          · simp
          · exact List.mem_cons_of_mem _ (ih (h ▸ hm))

theorem mem_b64encodePadded : ∀ (bs : List Nat) (c : Char),
    c ∈ b64encodePadded bs → c ∈ b64Alphabet ∨ c = '='
  | [], c => by simp [b64encodePadded]
  | [a], c => by
      intro hc
      simp only [b64encodePadded, List.mem_cons, List.mem_singleton] at hc
      rcases hc with rfl | rfl | rfl | rfl | h
      · exact Or.inl (b64Char_mem _)
      · exact Or.inl (b64Char_mem _)
      · exact Or.inr rfl
      · exact Or.inr rfl
      · simp at h
  | [a, b], c => by
      intro hc
      simp only [b64encodePadded, List.mem_cons, List.mem_singleton] at hc
      rcases hc with rfl | rfl | rfl | rfl | h
      · exact Or.inl (b64Char_mem _)
      · exact Or.inl (b64Char_mem _)
      · exact Or.inl (b64Char_mem _)
      · exact Or.inr rfl
      · simp at h
  | a :: b :: d :: rest, c => by
      intro hc
      simp only [b64encodePadded, List.mem_cons] at hc
      rcases hc with rfl | rfl | rfl | rfl | h
      · exact Or.inl (b64Char_mem _)
      · exact Or.inl (b64Char_mem _)
      · exact Or.inl (b64Char_mem _)
      · exact Or.inl (b64Char_mem _)
      · exact mem_b64encodePadded rest c h

theorem dot_not_mem_b64seg (bs : List Nat) : '.' ∉ b64seg bs := by
  intro h
  rcases mem_b64encodePadded _ _ (mem_rstripEq _ _ h) with hm | he
  · revert hm
    decide
  · exact absurd he (by decide)

theorem splitOnDot_ne_nil : ∀ l : List Char, splitOnDot l ≠ []
  | [] => by simp [splitOnDot]
  | c :: cs => by
      simp only [splitOnDot]
      cases h : splitOnDot cs with
      | nil => simp
      | cons p ps => by_cases hc : c = '.' <;> simp [hc]

theorem splitOnDot_dotfree : ∀ l : List Char, '.' ∉ l → splitOnDot l = [l]
  | [], _ => rfl
  | c :: cs, h => by
      have hc : c ≠ '.' := fun hcc => h (by simp [hcc])
      have ih := splitOnDot_dotfree cs (fun hm => h (List.mem_cons_of_mem _ hm))
      simp only [splitOnDot, ih]
      simp [hc]

theorem splitOnDot_append : ∀ (a t : List Char), '.' ∉ a →
    splitOnDot (a ++ '.' :: t) = a :: splitOnDot t
  | [], t, _ => by
      simp only [List.nil_append, splitOnDot]
      cases h : splitOnDot t with
      | nil => exact absurd h (splitOnDot_ne_nil t)
      | cons p ps => simp
  | c :: a, t, h => by
      have hc : c ≠ '.' := fun hcc => h (by simp [hcc])
      have ih := splitOnDot_append a t (fun hm => h (List.mem_cons_of_mem _ hm))
      simp only [List.cons_append, splitOnDot, List.append_eq]
      rw [ih]
      simp [hc]

theorem splitOnDot_token (h p s : List Char) (hh : '.' ∉ h) (hp : '.' ∉ p)
    (hs : '.' ∉ s) : splitOnDot (h ++ '.' :: (p ++ '.' :: s)) = [h, p, s] := by
  rw [splitOnDot_append _ _ hh, splitOnDot_append _ _ hp, splitOnDot_dotfree _ hs]

theorem skipWs_cons (c : Char) (t : List Char)
    (h : ¬(c = ' ' ∨ c = '\t' ∨ c = '\n' ∨ c = '\r')) : skipWs (c :: t) = c :: t := by
  simp [skipWs, List.dropWhile_cons, h]

theorem skipWs_space (t : List Char) : skipWs (' ' :: t) = skipWs t := by
  simp [skipWs, List.dropWhile_cons]

theorem parseStrBody_escape : ∀ s rest : List Char,
    parseStrBody (jsonEscape s ++ '"' :: rest) = some (s, rest)
  | [], rest => by
      rw [show jsonEscape [] = [] from rfl, List.nil_append, parseStrBody.eq_def]
      simp
  | c :: s, rest => by
      have ih := parseStrBody_escape s rest
      by_cases hc : c = '"' ∨ c = '\\'
      · simp only [jsonEscape, if_pos hc, List.cons_append]
        rw [parseStrBody.eq_def]
        simp [hc, ih]
      · simp only [jsonEscape, if_neg hc, List.cons_append]
        have h1 : c ≠ '"' := fun h => hc (Or.inl h)
        have h2 : c ≠ '\\' := fun h => hc (Or.inr h)
        rw [parseStrBody.eq_def]
        simp [h1, h2, ih]

theorem parseStrLit_lit (s rest : List Char) :
    parseStrLit (jsonStrLit s ++ rest) = some (s, rest) := by
  show parseStrBody ((jsonEscape s ++ ['"']) ++ rest) = some (s, rest)
  rw [List.append_assoc, List.singleton_append]
  exact parseStrBody_escape s rest

theorem decDigit_mem (d : Nat) : decDigit d ∈ decDigits := by
  by_cases h : d < 10
  · revert d
    decide
  · simp only [decDigit]
    rw [List.getD_eq_default]
    · decide
    · have hl : decDigits.length = 10 := by decide
      omega

theorem decDigits_isDigit : ∀ c ∈ decDigits, c.isDigit = true := by decide

theorem decDigit_isDigit (d : Nat) : (decDigit d).isDigit = true :=
  decDigits_isDigit _ (decDigit_mem d)

theorem decDigit_val (d : Nat) (h : d < 10) : (decDigit d).toNat = 48 + d := by
  revert d
  decide

theorem natToDecAux_fuel : ∀ f1 f2 n : Nat, n < f1 → n < f2 →
    natToDecAux f1 n = natToDecAux f2 n := by
  intro f1
  induction f1 using Nat.strong_induction_on with
  | _ f1 ih =>
      intro f2 n h1 h2
      match f1, h1 with
      | g1 + 1, _ =>
        match f2, h2 with
        | g2 + 1, _ =>
          simp only [natToDecAux]
          split
          · rfl
          · next h =>
              rw [ih g1 (by omega) g2 (n / 10) (by omega) (by omega)]

theorem natToDec_unfold (n : Nat) : natToDec n =
    if n < 10 then [decDigit n] else natToDec (n / 10) ++ [decDigit (n % 10)] := by
  show natToDecAux (n + 1) n = _
  rw [natToDecAux]
  split
  · rfl
  · next h =>
      rw [natToDecAux_fuel n (n / 10 + 1) (n / 10) (by omega) (by omega)]
      rfl

theorem natToDec_ne_nil (n : Nat) : natToDec n ≠ [] := by
  rw [natToDec_unfold]
  split <;> simp

theorem natToDec_digits (n : Nat) : ∀ c ∈ natToDec n, c.isDigit = true := by
  induction n using Nat.strong_induction_on with
  | _ n ih =>
      rw [natToDec_unfold]
      split
      · simp only [List.mem_singleton]
        rintro c rfl
        exact decDigit_isDigit n
      · next h =>
          simp only [List.mem_append, List.mem_singleton]
          rintro c (hm | rfl)
          · exact ih (n / 10) (by omega) c hm
          · exact decDigit_isDigit _

theorem digitsToNat_append (a : List Char) (c : Char) :
    digitsToNat (a ++ [c]) = digitsToNat a * 10 + (c.toNat - 48) := by
  simp [digitsToNat, List.foldl_append]

theorem digitsToNat_natToDec (n : Nat) : digitsToNat (natToDec n) = n := by
  induction n using Nat.strong_induction_on with
  | _ n ih =>
      rw [natToDec_unfold]
      split
      · next h =>
          have hv := decDigit_val n h
          simp [digitsToNat, hv]
      · next h =>
          rw [digitsToNat_append, ih (n / 10) (by omega),
            decDigit_val _ (Nat.mod_lt _ (by omega))]
          omega

theorem isDigit_ne_dash (c : Char) (h : c.isDigit = true) : c ≠ '-' := by
  intro hc
  rw [hc] at h
  exact absurd h (by decide)

theorem isDigit_ne_z (c : Char) (h : c.isDigit = true) : c ≠ 'Z' := by
  intro hc
  rw [hc] at h
  exact absurd h (by decide)

theorem parseIso_intToDec (t : Int) : parseIso (intToDec t) = some t := by
  unfold intToDec
  split
  · next hlt =>
      have hne : natToDec t.natAbs ≠ [] := natToDec_ne_nil _
      have hall : (natToDec t.natAbs).all Char.isDigit = true :=
        List.all_eq_true.mpr (natToDec_digits _)
      rw [parseIso.eq_def]
      simp only [List.cons.injEq, reduceIte, ne_eq, hne, not_false_iff, hall, and_self,
        if_true, if_pos rfl]
      rw [digitsToNat_natToDec]
      congr 1
      omega
  · next hge =>
      cases hn : natToDec t.toNat with
      | nil => exact absurd hn (natToDec_ne_nil _)
      | cons c ds =>
          have hc : c.isDigit = true := natToDec_digits _ c (by
            rw [hn]
            exact List.mem_cons_self c ds)
          have hall : (c :: ds).all Char.isDigit = true := by
            rw [← hn]
            exact List.all_eq_true.mpr (natToDec_digits _)
          rw [parseIso.eq_def]
          simp only [if_neg (isDigit_ne_dash c hc), hall, if_true, if_pos hall]
          rw [← hn, digitsToNat_natToDec]
          congr 1
          omega

theorem replaceZ_noZ : ∀ s : List Char, 'Z' ∉ s → replaceZ s = s
  | [], _ => rfl
  | c :: s, h => by
      have hc : c ≠ 'Z' := fun hcc => h (by simp [hcc])
      simp [replaceZ, hc, replaceZ_noZ s (fun hm => h (List.mem_cons_of_mem _ hm))]

theorem noZ_intToDec (t : Int) : 'Z' ∉ intToDec t := by
  unfold intToDec
  split
  · intro hm
    rcases List.mem_cons.mp hm with hz | hm2
    · exact absurd hz (by decide)
    · exact absurd rfl (isDigit_ne_z _ (natToDec_digits _ _ hm2))
  · intro hm
    exact absurd rfl (isDigit_ne_z _ (natToDec_digits _ _ hm))

theorem skipWs_strLit (s X : List Char) : skipWs (jsonStrLit s ++ X) = jsonStrLit s ++ X :=
  skipWs_cons '"' ((jsonEscape s ++ ['"']) ++ X) (by decide)

theorem skipWs_colon (t : List Char) : skipWs (':' :: t) = ':' :: t :=
  skipWs_cons ':' t (by decide)

theorem skipWs_comma (t : List Char) : skipWs (',' :: t) = ',' :: t :=
  skipWs_cons ',' t (by decide)

theorem skipWs_closeBrace (t : List Char) : skipWs ('}' :: t) = '}' :: t :=
  skipWs_cons '}' t (by decide)

theorem skipWs_closeBrack (t : List Char) : skipWs (']' :: t) = ']' :: t :=
  skipWs_cons ']' t (by decide)

theorem parsePVal_ws (l : List Char) : parsePVal (' ' :: l) = parsePVal l := by
  unfold parsePVal
  rw [skipWs_space]

theorem parseMembers_ws (fuel : Nat) (l : List Char) :
    parseMembers fuel (' ' :: l) = parseMembers fuel l := by
  cases fuel with
  | zero => rfl
  | succ f => simp only [parseMembers, skipWs_space]

theorem parseStrItems_ws (fuel : Nat) (l : List Char) :
    parseStrItems fuel (' ' :: l) = parseStrItems fuel l := by
  cases fuel with
  | zero => rfl
  | succ f => simp only [parseStrItems, skipWs_space]

theorem join_shape (s : List Char) (ss : List (List Char)) :
    ∃ T, joinCommaSp ((s :: ss).map jsonStrLit) = jsonStrLit s ++ T := by
  cases ss with
  | nil => exact ⟨[], by simp [joinCommaSp]⟩
  | cons s2 ss2 =>
      exact ⟨',' :: ' ' :: joinCommaSp ((s2 :: ss2).map jsonStrLit), by
        simp [joinCommaSp]⟩

theorem joinLit_length : ∀ ss : List (List Char),
    ss.length ≤ (joinCommaSp (ss.map jsonStrLit)).length
  | [] => by simp [joinCommaSp]
  | [s] => by simp [joinCommaSp, jsonStrLit]
  | s1 :: s2 :: ss => by
      have ih := joinLit_length (s2 :: ss)
      simp only [List.map_cons, joinCommaSp, jsonStrLit] at ih ⊢
      simp only [List.length_append, List.length_cons] at ih ⊢
      omega

theorem parseStrItems_serialized : ∀ (ss : List (List Char)) (fuel : Nat) (rest : List Char),
    ss ≠ [] → ss.length ≤ fuel →
    parseStrItems fuel (joinCommaSp (ss.map jsonStrLit) ++ ']' :: rest) = some (ss, rest)
  | [], _, _, hne, _ => absurd rfl hne
  | [s], fuel, rest, _, hf => by
      cases fuel with
      | zero => simp at hf
      | succ f =>
          simp only [List.map_cons, List.map_nil, joinCommaSp]
          simp only [parseStrItems, skipWs_strLit, parseStrLit_lit, skipWs_closeBrack]
          simp
  | s1 :: s2 :: ss, fuel, rest, _, hf => by
      cases fuel with
      | zero => simp at hf
      | succ f =>
          have ih := parseStrItems_serialized (s2 :: ss) f rest (by simp)
            (by simp at hf ⊢; omega)
          simp only [List.map_cons, joinCommaSp] at ih ⊢
          simp only [parseStrItems, List.cons_append, List.append_assoc, skipWs_strLit,
            parseStrLit_lit, skipWs_comma, parseStrItems_ws, reduceIte, ih]
          simp

theorem parsePVal_strLit (s X : List Char) :
    parsePVal (jsonStrLit s ++ X) = some (PVal.str s, X) := by
  unfold parsePVal
  rw [skipWs_strLit]
  show (parseStrBody ((jsonEscape s ++ ['"']) ++ X)).map _ = _
  rw [List.append_assoc, List.singleton_append, parseStrBody_escape]
  rfl

theorem parsePVal_strArr : ∀ (ss : List (List Char)) (X : List Char),
    parsePVal (jsonStrArr ss ++ X) = some (PVal.arr ss, X)
  | [], X => by
      rw [show jsonStrArr [] ++ X = '[' :: ']' :: X from rfl]
      unfold parsePVal
      rw [skipWs_cons '[' (']' :: X) (by decide)]
      simp [skipWs_closeBrack]
  | s :: ss, X => by
      obtain ⟨T, hT⟩ := join_shape s ss
      have hall : jsonStrArr (s :: ss) ++ X =
          '[' :: ('"' :: (jsonEscape s ++ ['"'] ++ T ++ ']' :: X)) := by
        unfold jsonStrArr
        rw [hT]
        simp [jsonStrLit]
      have hjoin : '"' :: (jsonEscape s ++ ['"'] ++ T ++ ']' :: X) =
          joinCommaSp ((s :: ss).map jsonStrLit) ++ ']' :: X := by
        rw [hT]
        simp [jsonStrLit]
      rw [hall, show parsePVal ('[' :: '"' :: (jsonEscape s ++ ['"'] ++ T ++ ']' :: X)) =
          (parseStrItems ('"' :: (jsonEscape s ++ ['"'] ++ T ++ ']' :: X)).length
            ('"' :: (jsonEscape s ++ ['"'] ++ T ++ ']' :: X))).map
              (fun p => (PVal.arr p.1, p.2)) from rfl]
      rw [hjoin]
      rw [parseStrItems_serialized (s :: ss) _ X (by simp) (by
        have hj := joinLit_length (s :: ss)
        simp only [List.length_cons] at hj ⊢
        simp only [List.length_append, List.length_cons]
        omega)]
      rfl

theorem parseMembers_cons (f : Nat) (k Vs : List Char) (v : PVal)
    (X : List Char) (ms : List (List Char × PVal)) (rest2 : List Char)
    (hVal : parsePVal (Vs ++ ',' :: ' ' :: X) = some (v, ',' :: ' ' :: X))
    (hRec : parseMembers f X = some (ms, rest2)) :
    parseMembers (f + 1) (jsonMember k Vs ++ ',' :: ' ' :: X) =
      some ((k, v) :: ms, rest2) := by
  have hshape : jsonMember k Vs ++ ',' :: ' ' :: X =
      jsonStrLit k ++ (':' :: ' ' :: (Vs ++ ',' :: ' ' :: X)) := by
    simp [jsonMember]
  rw [hshape]
  simp only [parseMembers, skipWs_strLit, parseStrLit_lit, skipWs_colon, reduceIte,
    parsePVal_ws, hVal, skipWs_comma, parseMembers_ws, hRec, Option.map_some']

theorem parseMembers_last (f : Nat) (k Vs : List Char) (v : PVal) (rest : List Char)
    (hVal : parsePVal (Vs ++ '}' :: rest) = some (v, '}' :: rest)) :
    parseMembers (f + 1) (jsonMember k Vs ++ '}' :: rest) = some ([(k, v)], rest) := by
  have hshape : jsonMember k Vs ++ '}' :: rest =
      jsonStrLit k ++ (':' :: ' ' :: (Vs ++ '}' :: rest)) := by
    simp [jsonMember]
  rw [hshape]
  simp only [parseMembers, skipWs_strLit, parseStrLit_lit, skipWs_colon, reduceIte,
    parsePVal_ws, hVal, skipWs_closeBrace, Option.map_some']
  simp

theorem parseMembers_payload (u : List Char) (rs : List (List Char)) (eS iS : List Char)
    (f : Nat) (rest : List Char) :
    parseMembers (f + 4) (payloadMembers u rs eS iS ++ '}' :: rest) =
      some ([(kUser, PVal.str u), (kRoles, PVal.arr rs), (kExp, PVal.str eS),
        (kIat, PVal.str iS)], rest) := by
  unfold payloadMembers
  simp only [List.append_assoc, List.cons_append]
  exact parseMembers_cons _ _ _ _ _ _ _ (parsePVal_strLit u _)
    (parseMembers_cons _ _ _ _ _ _ _ (parsePVal_strArr rs _)
      (parseMembers_cons _ _ _ _ _ _ _ (parsePVal_strLit eS _)
        (parseMembers_last _ _ _ _ _ (parsePVal_strLit iS _))))

theorem parseJsonObj_of_members (M : List Char) (ms : List (List Char × PVal))
    (hM : ∃ T, M = '"' :: T)
    (hparse : parseMembers (M ++ ['}']).length (M ++ ['}']) = some (ms, [])) :
    parseJsonObj ('{' :: (M ++ ['}'])) = some ms := by
  obtain ⟨T, rfl⟩ := hM
  simp only [List.cons_append] at hparse ⊢
  rw [parseJsonObj.eq_def]
  rw [skipWs_cons '{' _ (by decide)]
  simp only [reduceIte]
  rw [skipWs_cons '"' _ (by decide)]
  simp only [reduceIte]
  rw [hparse]
  simp [skipWs]

theorem parseJsonObj_payload (u : List Char) (rs : List (List Char)) (eS iS : List Char) :
    parseJsonObj (payloadJson u rs eS iS) =
      some [(kUser, PVal.str u), (kRoles, PVal.arr rs), (kExp, PVal.str eS),
        (kIat, PVal.str iS)] := by
  obtain ⟨T, hT⟩ : ∃ T,
      payloadMembers u rs eS iS = '"' :: 'u' :: 's' :: 'e' :: 'r' :: '"' :: T := ⟨_, rfl⟩
  have hm : parseMembers (payloadMembers u rs eS iS ++ ['}']).length
      (payloadMembers u rs eS iS ++ ['}']) =
      some ([(kUser, PVal.str u), (kRoles, PVal.arr rs), (kExp, PVal.str eS),
        (kIat, PVal.str iS)], []) := by
    have hlen : (payloadMembers u rs eS iS ++ ['}']).length =
        ((payloadMembers u rs eS iS ++ ['}']).length - 4) + 4 := by
      rw [hT]
      simp only [List.length_append, List.length_cons]
      omega
    rw [hlen]
    exact parseMembers_payload u rs eS iS _ []
  rw [show payloadJson u rs eS iS = '{' :: (payloadMembers u rs eS iS ++ ['}']) from rfl]
  exact parseJsonObj_of_members _ _ ⟨_, hT⟩ hm

theorem ascii_append (a b : List Char) (ha : ∀ c ∈ a, c.toNat < 128)
    (hb : ∀ c ∈ b, c.toNat < 128) : ∀ c ∈ a ++ b, c.toNat < 128 := by
  intro c hc
  rcases List.mem_append.mp hc with h | h
  · exact ha c h
  · exact hb c h

theorem ascii_cons (a : Char) (s : List Char) (ha : a.toNat < 128)
    (hs : ∀ c ∈ s, c.toNat < 128) : ∀ c ∈ a :: s, c.toNat < 128 := by
  intro c hc
  rcases List.mem_cons.mp hc with rfl | h
  · exact ha
  · exact hs c h

theorem ascii_jsonEscape : ∀ s : List Char, (∀ c ∈ s, c.toNat < 128) →
    ∀ c ∈ jsonEscape s, c.toNat < 128
  | [], _ => by simp [jsonEscape]
  | a :: s, h => by
      have ih := ascii_jsonEscape s (fun c hc => h c (List.mem_cons_of_mem _ hc))
      have ha := h a (List.mem_cons_self _ _)
      simp only [jsonEscape]
      split
      · exact ascii_cons _ _ (by decide) (ascii_cons _ _ ha ih)
      · exact ascii_cons _ _ ha ih

theorem ascii_jsonStrLit (s : List Char) (h : ∀ c ∈ s, c.toNat < 128) :
    ∀ c ∈ jsonStrLit s, c.toNat < 128 :=
  ascii_cons _ _ (by decide)
    (ascii_append _ _ (ascii_jsonEscape s h) (by decide))

theorem ascii_joinCommaSp : ∀ ls : List (List Char),
    (∀ x ∈ ls, ∀ c ∈ x, c.toNat < 128) → ∀ c ∈ joinCommaSp ls, c.toNat < 128
  | [], _ => by simp [joinCommaSp]
  | [x], h => by
      simpa [joinCommaSp] using h x (List.mem_cons_self _ _)
  | x :: y :: t, h => by
      have ih := ascii_joinCommaSp (y :: t) (fun z hz => h z (List.mem_cons_of_mem _ hz))
      simp only [joinCommaSp]
      exact ascii_append _ _ (h x (List.mem_cons_self _ _))
        (ascii_cons _ _ (by decide) (ascii_cons _ _ (by decide) ih))

theorem ascii_jsonStrArr (ss : List (List Char))
    (h : ∀ x ∈ ss, ∀ c ∈ x, c.toNat < 128) : ∀ c ∈ jsonStrArr ss, c.toNat < 128 := by
  refine ascii_cons _ _ (by decide) (ascii_append _ _ ?_ (by decide))
  refine ascii_joinCommaSp _ ?_
  intro z hz
  rcases List.mem_map.mp hz with ⟨x, hx, rfl⟩
  exact ascii_jsonStrLit x (h x hx)

theorem ascii_decDigits : ∀ c ∈ decDigits, c.toNat < 128 := by decide

theorem ascii_natToDec (n : Nat) : ∀ c ∈ natToDec n, c.toNat < 128 := by
  induction n using Nat.strong_induction_on with
  | _ n ih =>
      rw [natToDec_unfold]
      split
      · simp only [List.mem_singleton]
        rintro c rfl
        exact ascii_decDigits _ (decDigit_mem n)
      · next h =>
          exact ascii_append _ _ (ih (n / 10) (by omega)) (by
            intro c hc
            rcases List.mem_singleton.mp hc with rfl
            exact ascii_decDigits _ (decDigit_mem _))

theorem ascii_intToDec (t : Int) : ∀ c ∈ intToDec t, c.toNat < 128 := by
  unfold intToDec
  split
  · exact ascii_cons _ _ (by decide) (ascii_natToDec _)
  · exact ascii_natToDec _

theorem ascii_jsonMember (k v : List Char) (hk : ∀ c ∈ k, c.toNat < 128)
    (hv : ∀ c ∈ v, c.toNat < 128) : ∀ c ∈ jsonMember k v, c.toNat < 128 :=
  ascii_append _ _ (ascii_jsonStrLit k hk)
    (ascii_cons _ _ (by decide) (ascii_cons _ _ (by decide) hv))

theorem ascii_payloadJson (u : List Char) (rs : List (List Char)) (eS iS : List Char)
    (hu : ∀ c ∈ u, c.toNat < 128) (hrs : ∀ x ∈ rs, ∀ c ∈ x, c.toNat < 128)
    (he : ∀ c ∈ eS, c.toNat < 128) (hi : ∀ c ∈ iS, c.toNat < 128) :
    ∀ c ∈ payloadJson u rs eS iS, c.toNat < 128 := by
  unfold payloadJson payloadMembers
  refine ascii_cons _ _ (by decide) (ascii_append _ _ ?_ (by decide))
  refine ascii_append _ _ (ascii_jsonMember _ _ (by decide) (ascii_jsonStrLit u hu)) ?_
  refine ascii_cons _ _ (by decide) (ascii_cons _ _ (by decide) ?_)
  refine ascii_append _ _ (ascii_jsonMember _ _ (by decide) (ascii_jsonStrArr rs hrs)) ?_
  refine ascii_cons _ _ (by decide) (ascii_cons _ _ (by decide) ?_)
  refine ascii_append _ _ (ascii_jsonMember _ _ (by decide) (ascii_jsonStrLit eS he)) ?_
  refine ascii_cons _ _ (by decide) (ascii_cons _ _ (by decide) ?_)
  exact ascii_jsonMember _ _ (by decide) (ascii_jsonStrLit iS hi)

theorem bytesToChars_strBytes (s : List Char) (h : ∀ c ∈ s, c.toNat < 128) :
    bytesToChars? (strBytes s) = some s := by
  unfold bytesToChars? strBytes
  rw [if_pos]
  · rw [List.map_map]
    congr 1
    have he : ∀ c ∈ s, (Char.ofNat ∘ Char.toNat) c = id c := fun c _ => Char.ofNat_toNat c
    rw [List.map_congr_left he, List.map_id]
  · rw [List.all_eq_true]
    intro b hb
    rcases List.mem_map.mp hb with ⟨c, hc, rfl⟩
    simpa using h c hc

theorem strBytes_lt256 (s : List Char) (h : ∀ c ∈ s, c.toNat < 128) :
    ∀ b ∈ strBytes s, b < 256 := by
  intro b hb
  rcases List.mem_map.mp hb with ⟨c, hc, rfl⟩
  have := h c hc
  omega

theorem decode_b64seg (bs : List Nat) (h : ∀ b ∈ bs, b < 256) :
    b64decodeGroups (restorePad (b64seg bs)) = some bs := by
  unfold b64seg
  rw [restorePad_rstripEq_encode, b64decode_encode bs h]

theorem lookup_exp (a b c d : PVal) :
    pyDictGet [(kUser, a), (kRoles, b), (kExp, c), (kIat, d)] kExp = some c := by
  simp [pyDictGet, List.lookup,
    show (kExp == kIat) = false from by decide,
    show (kExp == kExp) = true from by decide]

theorem lookup_user (a b c d : PVal) :
    pyDictGet [(kUser, a), (kRoles, b), (kExp, c), (kIat, d)] kUser = some a := by
  simp [pyDictGet, List.lookup,
    show (kUser == kIat) = false from by decide,
    show (kUser == kExp) = false from by decide,
    show (kUser == kRoles) = false from by decide,
    show (kUser == kUser) = true from by decide]

theorem lookup_roles (a b c d : PVal) :
    pyDictGet [(kUser, a), (kRoles, b), (kExp, c), (kIat, d)] kRoles = some b := by
  simp [pyDictGet, List.lookup,
    show (kRoles == kIat) = false from by decide,
    show (kRoles == kExp) = false from by decide,
    show (kRoles == kRoles) = true from by decide]

theorem verify_create (hmacF : List Nat → List Nat → List Nat) (secret : List Nat)
    (hours t now2 : Int) (u : List Char) (roles : Option (List (List Char)))
    (hu : PlainStr u) (hroles : ∀ x ∈ pyOrRoles roles, PlainStr x) :
    verify_jwt_token now2 (create_jwt_token hmacF secret hours t u roles) =
      if now2 > t + hours * 3600 then none
      else some { user := some (PVal.str u), roles := PVal.arr (pyOrRoles roles),
                  authenticated := true } := by
  have hu128 : ∀ c ∈ u, c.toNat < 128 := fun c hc => by
    have h2 := hu c hc
    unfold PlainChar at h2
    omega
  have hrs128 : ∀ x ∈ pyOrRoles roles, ∀ c ∈ x, c.toNat < 128 := fun x hx c hc => by
    have h2 := hroles x hx c hc
    unfold PlainChar at h2
    omega
  set rs := pyOrRoles roles with hrs
  set eS := intToDec (t + hours * 3600) with heS
  set iS := intToDec t with hiS
  set P := payloadJson u rs eS iS with hP
  have hPascii : ∀ c ∈ P, c.toNat < 128 := by
    rw [hP]
    exact ascii_payloadJson u rs eS iS hu128 hrs128
      (by rw [heS]; exact ascii_intToDec _) (by rw [hiS]; exact ascii_intToDec _)
  set EH := b64seg (strBytes headerJson) with hEH
  set EP := b64seg (strBytes P) with hEP
  set ES := b64seg (hmacF secret (strBytes (EH ++ '.' :: EP))) with hES
  have htok : create_jwt_token hmacF secret hours t u roles =
      EH ++ '.' :: (EP ++ '.' :: ES) := rfl
  rw [htok]
  have hne : ¬(EH ++ '.' :: (EP ++ '.' :: ES) = []) := by simp
  have hsplit : splitOnDot (EH ++ '.' :: (EP ++ '.' :: ES)) = [EH, EP, ES] := by
    rw [hEH, hEP, hES]
    exact splitOnDot_token _ _ _ (dot_not_mem_b64seg _) (dot_not_mem_b64seg _)
      (dot_not_mem_b64seg _)
  have hdec : b64decodeGroups (restorePad EP) = some (strBytes P) := by
    rw [hEP]
    exact decode_b64seg _ (strBytes_lt256 _ hPascii)
  have hbytes : bytesToChars? (strBytes P) = some P := bytesToChars_strBytes _ hPascii
  have hparse : parseJsonObj P = some [(kUser, PVal.str u), (kRoles, PVal.arr rs),
      (kExp, PVal.str eS), (kIat, PVal.str iS)] := by
    rw [hP]
    exact parseJsonObj_payload u rs eS iS
  have hiso : parseIso (replaceZ eS) = some (t + hours * 3600) := by
    rw [replaceZ_noZ _ (by rw [heS]; exact noZ_intToDec _), heS]
    exact parseIso_intToDec _
  simp only [verify_jwt_token, if_neg hne, hsplit, hdec, hbytes, hparse,
    lookup_exp, hiso, jwtAuthInfo, lookup_user, lookup_roles, Option.getD_some]

theorem pyOrRoles_of_ne (rs : List (List Char)) (hne : rs ≠ []) :
    pyOrRoles (some rs) = rs := by
  cases rs with
  | nil => exact absurd rfl hne
  | cons a l => rfl

/-- C1 (amended): `verify_jwt_token` never recomputes or compares the
HMAC signature: its result depends only on the payload segment and the
current time, so replacing the signature segment of a well-formed token
by any other dot-free segment leaves the verification outcome
unchanged. -/
theorem C1_verify_ignores_signature (now : Int) (h p s1 s2 : List Char)
    (hh : '.' ∉ h) (hp : '.' ∉ p) (hs1 : '.' ∉ s1) (hs2 : '.' ∉ s2) :
    verify_jwt_token now (h ++ '.' :: (p ++ '.' :: s1)) =
      verify_jwt_token now (h ++ '.' :: (p ++ '.' :: s2)) := by
  have hne1 : ¬(h ++ '.' :: (p ++ '.' :: s1) = []) := by simp
  have hne2 : ¬(h ++ '.' :: (p ++ '.' :: s2) = []) := by simp
  simp only [verify_jwt_token, if_neg hne1, if_neg hne2,
    splitOnDot_token h p s1 hh hp hs1, splitOnDot_token h p s2 hh hp hs2]

/-- Witness for C1: two concrete tokens differing only in the signature
segment verify identically. -/
theorem C1_verify_ignores_signature_witness :
    ('.' ∉ (("hd").data)) ∧ ('.' ∉ (("pl").data)) ∧ ('.' ∉ (("sigA").data)) ∧
    ('.' ∉ (("sigB").data)) ∧
    verify_jwt_token 0 ((("hd").data) ++ '.' :: ((("pl").data) ++ '.' :: (("sigA").data))) =
      verify_jwt_token 0 ((("hd").data) ++ '.' :: ((("pl").data) ++ '.' :: (("sigB").data))) :=
  ⟨by decide, by decide, by decide, by decide,
    C1_verify_ignores_signature 0 _ _ _ _ (by decide) (by decide) (by decide) (by decide)⟩

set_option maxRecDepth 8000 in
/-- Counterexample to C1 as stated: mutating a byte of the signature
segment of an issued token (header and payload segments unchanged) does
not make `verify_jwt_token` fail — the mutated token verifies to exactly
the same successful result. -/
theorem C1_counterexample :
    mutateSigSeg demoTokenUser ≠ demoTokenUser ∧
    (splitOnDot (mutateSigSeg demoTokenUser)).getD 0 [] =
      (splitOnDot demoTokenUser).getD 0 [] ∧
    (splitOnDot (mutateSigSeg demoTokenUser)).getD 1 [] =
      (splitOnDot demoTokenUser).getD 1 [] ∧
    verify_jwt_token 1000 (mutateSigSeg demoTokenUser) =
      verify_jwt_token 1000 demoTokenUser ∧
    (verify_jwt_token 1000 demoTokenUser).isSome = true :=
  ⟨by decide, by decide, by decide, by decide, by decide⟩

/-- C3 (amended): for every user name and every non-empty role list over
printable ASCII, and every non-negative configured ttl, verifying a token
immediately after issuing it succeeds and returns the identity context
with that user, those roles and `authenticated = true`. -/
theorem C3_roundtrip (hmacF : List Nat → List Nat → List Nat) (secret : List Nat)
    (hours t : Int) (u : List Char) (rs : List (List Char))
    (hu : PlainStr u) (hrs : ∀ x ∈ rs, PlainStr x) (hne : rs ≠ []) (hh : 0 ≤ hours) :
    verify_jwt_token t (create_jwt_token hmacF secret hours t u (some rs)) =
      some { user := some (PVal.str u), roles := PVal.arr rs, authenticated := true } := by
  rw [verify_create hmacF secret hours t t u (some rs) hu
    (by rw [pyOrRoles_of_ne rs hne]; exact hrs)]
  rw [if_neg (by omega), pyOrRoles_of_ne rs hne]

/-- Witness for C3: the round trip at a concrete user, role list and
issue time. -/
theorem C3_roundtrip_witness :
    PlainStr (("alice").data) ∧ (∀ x ∈ [("user").data], PlainStr x) ∧
    ([("user").data] : List (List Char)) ≠ [] ∧ (0 : Int) ≤ 24 ∧
    verify_jwt_token 1000
        (create_jwt_token hmacConst secretConst 24 1000 (("alice").data)
          (some [("user").data])) =
      some { user := some (PVal.str (("alice").data)),
             roles := PVal.arr [("user").data], authenticated := true } :=
  ⟨by decide, by decide, by decide, by decide,
    C3_roundtrip hmacConst secretConst 24 1000 _ _ (by decide) (by decide) (by decide)
      (by decide)⟩

/-- Counterexample to C3 as stated: issuing a token with the empty role
list and verifying it immediately yields the default roles `['user']`,
not the empty list that was passed in (`roles or ['user']` treats `[]` as
falsy). -/
theorem C3_counterexample :
    verify_jwt_token 1000
        (create_jwt_token hmacConst secretConst 24 1000 (("a").data) (some [])) =
      some { user := some (PVal.str (("a").data)), roles := PVal.arr [("user").data],
             authenticated := true } ∧
    PVal.arr [("user").data] ≠ PVal.arr [] := by
  constructor
  · rw [verify_create hmacConst secretConst 24 1000 1000 (("a").data) (some [])
      (by decide) (by decide)]
    rw [if_neg (by omega)]
    rfl
  · decide

/-- C4: for every issued token, once the current time is strictly past
the token's `expires_at` (issue time plus the configured hours),
`verify_jwt_token` returns `None`; the check compares the stored expiry
against the clock supplied at each verification. -/
theorem C4_expired (hmacF : List Nat → List Nat → List Nat) (secret : List Nat)
    (hours t now2 : Int) (u : List Char) (roles : Option (List (List Char)))
    (hu : PlainStr u) (hrs : ∀ x ∈ pyOrRoles roles, PlainStr x)
    (hexp : now2 > t + hours * 3600) :
    verify_jwt_token now2 (create_jwt_token hmacF secret hours t u roles) = none := by
  rw [verify_create hmacF secret hours t now2 u roles hu hrs, if_pos hexp]

/-- Witness for C4: a concrete token expires one second past its
`expires_at`. -/
theorem C4_expired_witness :
    PlainStr (("bob").data) ∧ (∀ x ∈ pyOrRoles (some [("user").data]), PlainStr x) ∧
    ((1000 + 24 * 3600 + 1 : Int) > 1000 + 24 * 3600) ∧
    verify_jwt_token (1000 + 24 * 3600 + 1)
        (create_jwt_token hmacConst secretConst 24 1000 (("bob").data)
          (some [("user").data])) = none :=
  ⟨by decide, by decide, by decide,
    C4_expired hmacConst secretConst 24 1000 _ _ (some [("user").data]) (by decide)
      (by decide) (by decide)⟩

/-- C9: when a policy requires neither an API key nor a token,
`require_auth` admits every request with the empty identity context
(`current_user = None`, `user_roles = []`, `authenticated = False`) and
skips the role check entirely, whatever the policy's role list says. -/
theorem C9_no_auth_required (validateKey : Option (List Char) → Option AuthInfo)
    (verifyTok : List Char → Option AuthInfo) (roles : List (List Char))
    (xkey : Option (List Char)) (hdr : List Char) :
    require_auth validateKey verifyTok false false roles xkey hdr =
      AuthOutcome.granted { currentUser := none, userRoles := PVal.arr [],
                            authenticated := false } := by
  simp [require_auth]

/-- C6: with both checks required, the API-key check runs first: a
successful API-key validation makes the guard's outcome independent of
the token verifier and of the Authorization header (the token check is
short-circuited), and an API-key failure rejects with 401 before any
token handling. -/
theorem C6_api_key_precedence :
    (∀ (validateKey : Option (List Char) → Option AuthInfo)
        (verifyTok verifyTok2 : List Char → Option AuthInfo)
        (roles : List (List Char)) (xkey : Option (List Char)) (hdr hdr2 : List Char)
        (info : AuthInfo), validateKey xkey = some info →
        require_auth validateKey verifyTok true true roles xkey hdr =
          require_auth validateKey verifyTok2 true true roles xkey hdr2) ∧
    (∀ (validateKey : Option (List Char) → Option AuthInfo)
        (verifyTok : List Char → Option AuthInfo)
        (roles : List (List Char)) (xkey : Option (List Char)) (hdr : List Char),
        validateKey xkey = none →
        require_auth validateKey verifyTok true true roles xkey hdr =
          AuthOutcome.denied 401) := by
  constructor
  · intro vk vt vt2 roles xkey hdr hdr2 info hv
    simp [require_auth, hv]
  · intro vk vt roles xkey hdr hv
    simp [require_auth, hv]

/-- Witness for C6: a concrete successful API-key validation yields the
same outcome under two different token verifiers and headers, and a
concrete failed one is rejected with 401. -/
theorem C6_api_key_precedence_witness :
    require_auth (fun _ => some ⟨some (PVal.str (("u").data)), PVal.arr [], true⟩)
        (fun _ => none) true true [] none [] =
      require_auth (fun _ => some ⟨some (PVal.str (("u").data)), PVal.arr [], true⟩)
        (fun _ => some ⟨none, PVal.arr [], true⟩) true true [] none (("junk").data) ∧
    require_auth (fun _ => none) (fun _ => some ⟨none, PVal.arr [], true⟩) true true []
        none [] = AuthOutcome.denied 401 :=
  ⟨C6_api_key_precedence.1 _ _ _ _ _ _ _ _ rfl,
    C6_api_key_precedence.2 _ _ _ _ _ rfl⟩

/-- C7: whenever the guard obtains an authenticated identity (by API key
or by bearer token) and the policy's role list is non-empty, the request
is admitted exactly when one required role is among the identity's
roles, and otherwise rejected with 403. -/
theorem C7_role_enforcement :
    (∀ (validateKey : Option (List Char) → Option AuthInfo)
        (verifyTok : List Char → Option AuthInfo) (jwtReq : Bool)
        (roles : List (List Char)) (xkey : Option (List Char)) (hdr : List Char)
        (info : AuthInfo), validateKey xkey = some info → roles ≠ [] →
        require_auth validateKey verifyTok true jwtReq roles xkey hdr =
          (if roles.any (fun role => pyIn role info.roles) then
            AuthOutcome.granted { currentUser := info.user, userRoles := info.roles,
                                  authenticated := true }
          else AuthOutcome.denied 403)) ∧
    (∀ (validateKey : Option (List Char) → Option AuthInfo)
        (verifyTok : List Char → Option AuthInfo)
        (roles : List (List Char)) (xkey : Option (List Char)) (tok : List Char)
        (info : AuthInfo), verifyTok tok = some info → roles ≠ [] →
        require_auth validateKey verifyTok false true roles xkey
            ('B' :: 'e' :: 'a' :: 'r' :: 'e' :: 'r' :: ' ' :: tok) =
          (if roles.any (fun role => pyIn role info.roles) then
            AuthOutcome.granted { currentUser := info.user, userRoles := info.roles,
                                  authenticated := true }
          else AuthOutcome.denied 403)) := by
  constructor
  · intro vk vt jwtReq roles xkey hdr info hv hroles
    simp [require_auth, hv, hroles]
  · intro vk vt roles xkey tok info hv hroles
    simp [require_auth, hv, hroles]

set_option maxRecDepth 8000 in
/-- Witness for C7: under an admin-only policy, a bearer token carrying
only the `user` role is rejected with 403 while a token carrying the
`admin` role is admitted. -/
theorem C7_role_enforcement_witness :
    require_auth (fun _ => none) (verify_jwt_token 1000) false true [("admin").data] none
        ('B' :: 'e' :: 'a' :: 'r' :: 'e' :: 'r' :: ' ' :: demoTokenUser) =
      AuthOutcome.denied 403 ∧
    require_auth (fun _ => none) (verify_jwt_token 1000) false true [("admin").data] none
        ('B' :: 'e' :: 'a' :: 'r' :: 'e' :: 'r' :: ' ' :: demoTokenAdmin) =
      AuthOutcome.granted { currentUser := some (PVal.str (("alice").data)),
                            userRoles := PVal.arr [("admin").data, ("user").data],
                            authenticated := true } :=
  ⟨(C7_role_enforcement.2 _ _ _ _ _
      ⟨some (PVal.str (("bob").data)), PVal.arr [("user").data], true⟩
      (by decide) (by decide)).trans (by decide),
    (C7_role_enforcement.2 _ _ _ _ _
      ⟨some (PVal.str (("alice").data)), PVal.arr [("admin").data, ("user").data], true⟩
      (by decide) (by decide)).trans (by decide)⟩

theorem lookup_map_set {β : Type} (k q : List Char) (v : β) (h : (q == k) = false) :
    ∀ m : List (List Char × β),
      List.lookup q (m.map (fun p => if p.1 == k then (k, v) else p)) = List.lookup q m
  | [] => rfl
  | a :: m => by
      have ih := lookup_map_set k q v h m
      obtain ⟨a1, a2⟩ := a
      simp only [List.map_cons]
      by_cases hak : (a1 == k) = true
      · rw [if_pos hak]
        have hqa : (q == a1) = false := by
          rw [eq_of_beq hak]
          exact h
        simp only [List.lookup, h, hqa]
        simpa using ih
      · rw [if_neg hak]
        cases hqa : (q == a1) with
        | true => simp [List.lookup, hqa]
        | false =>
            simp only [List.lookup, hqa]
            simpa using ih

theorem lookup_append_right_none {β : Type} (q : List Char) (m2 : List (List Char × β))
    (h2 : List.lookup q m2 = none) :
    ∀ m : List (List Char × β), List.lookup q (m ++ m2) = List.lookup q m
  | [] => by simp [h2, List.lookup]
  | a :: m => by
      have ih := lookup_append_right_none q m2 h2 m
      obtain ⟨a1, a2⟩ := a
      cases hqa : (q == a1) with
      | true => simp [List.lookup, hqa]
      | false =>
          simp only [List.cons_append, List.lookup, hqa]
          simpa using ih

theorem lookup_dictSet {β : Type} : ∀ (m : List (List Char × β)) (k : List Char) (v : β),
    List.lookup k (dictSet m k v) = some v
  | [], k, v => by simp [dictSet, List.lookup]
  | a :: m, k, v => by
      have ih := lookup_dictSet m k v
      obtain ⟨a1, a2⟩ := a
      by_cases hae : a1 = k
      · have hak : (a1 == k) = true := by
          rw [hae]
          exact beq_self_eq_true k
        have hmem : (((a1, a2) :: m).any (fun p => p.1 == k)) = true := by
          simp [List.any_cons, hak]
        rw [dictSet, if_pos hmem]
        simp only [List.map_cons]
        rw [show (if (a1 == k) = true then (k, v) else ((a1, a2) : List Char × β)) =
          (k, v) from by simp [hak]]
        simp [List.lookup]
      · have hak : (a1 == k) = false := by
          cases hx : (a1 == k)
          · rfl
          · exact absurd (eq_of_beq hx) hae
        have hka : (k == a1) = false := by
          cases hx : (k == a1)
          · rfl
          · exact absurd (eq_of_beq hx).symm hae
        by_cases hmem : (((a1, a2) :: m).any (fun p => p.1 == k)) = true
        · have hm2 : (m.any (fun p => p.1 == k)) = true := by
            have h0 := hmem
            simp only [List.any_cons, Bool.or_eq_true] at h0
            rcases h0 with h1 | h1
            · exact absurd h1 (by simp [hak])
            · exact h1
          rw [dictSet, if_pos hmem]
          simp only [List.map_cons]
          rw [show (if (a1 == k) = true then (k, v) else ((a1, a2) : List Char × β)) =
            (a1, a2) from by simp [hak]]
          simp only [List.lookup, hka]
          rw [dictSet, if_pos hm2] at ih
          exact ih
        · rw [dictSet, if_neg hmem]
          have hm2 : ¬((m.any (fun p => p.1 == k)) = true) := fun hh =>
            hmem (by simp [List.any_cons, hh])
          simp only [List.cons_append, List.lookup, hka]
          rw [dictSet, if_neg hm2] at ih
          exact ih

theorem lookup_dictSet_ne {β : Type} (m : List (List Char × β)) (k q : List Char) (v : β)
    (h : (q == k) = false) : List.lookup q (dictSet m k v) = List.lookup q m := by
  unfold dictSet
  split
  · exact lookup_map_set k q v h m
  · exact lookup_append_right_none q [(k, v)] (by simp [List.lookup, h]) m

/-- C5: each admission check first purges timestamps at or before
`now - window_seconds`, then denies with `retry_after = window_seconds`
when `max_requests` many remain and otherwise records `now` and allows;
concretely, with `max_requests = 3` and `window_seconds = 60`, four calls
within one second from one key yield allow, allow, allow, deny, and a
call once the window has passed allows again. -/
theorem C5_rate_limit_behavior :
    (∀ (m : Nat) (w : ℚ) (st : RLState) (k : List Char) (now : ℚ),
      (rate_limit_allow m w st k now).1 =
        (if m ≤ (((List.lookup k st).getD []).filter (fun ts => now - w < ts)).length
          then RLDecision.denied w else RLDecision.allowed) ∧
      List.lookup k (rate_limit_allow m w st k now).2 =
        some (if m ≤ (((List.lookup k st).getD []).filter (fun ts => now - w < ts)).length
          then ((List.lookup k st).getD []).filter (fun ts => now - w < ts)
          else (((List.lookup k st).getD []).filter (fun ts => now - w < ts)) ++ [now])) ∧
    (∀ (key : List Char) (t1 t2 t3 t4 t5 : ℚ), t1 ≤ t2 → t2 ≤ t3 → t3 ≤ t4 →
      t4 < t1 + 60 → t3 + 60 ≤ t5 →
      (rate_limit_allow 3 60 [] key t1).1 = RLDecision.allowed ∧
      (rate_limit_allow 3 60 (rate_limit_allow 3 60 [] key t1).2 key t2).1 =
        RLDecision.allowed ∧
      (rate_limit_allow 3 60 (rate_limit_allow 3 60 (rate_limit_allow 3 60 [] key t1).2
        key t2).2 key t3).1 = RLDecision.allowed ∧
      (rate_limit_allow 3 60 (rate_limit_allow 3 60 (rate_limit_allow 3 60
        (rate_limit_allow 3 60 [] key t1).2 key t2).2 key t3).2 key t4).1 =
        RLDecision.denied 60 ∧
      (rate_limit_allow 3 60 (rate_limit_allow 3 60 (rate_limit_allow 3 60
        (rate_limit_allow 3 60 (rate_limit_allow 3 60 [] key t1).2 key t2).2 key t3).2
        key t4).2 key t5).1 = RLDecision.allowed) := by
  constructor
  · intro m w st k now
    refine ⟨?_, ?_⟩ <;>
      by_cases hc : m ≤
          (((List.lookup k st).getD []).filter (fun ts => now - w < ts)).length <;>
        simp [rate_limit_allow, hc, lookup_dictSet]
  · intro key t1 t2 t3 t4 t5 h12 h23 h34 hw1 hw5
    have k21 : t2 - 60 < t1 := by linarith
    have k31 : t3 - 60 < t1 := by linarith
    have k32 : t3 - 60 < t2 := by linarith
    have k41 : t4 - 60 < t1 := by linarith
    have k42 : t4 - 60 < t2 := by linarith
    have k43 : t4 - 60 < t3 := by linarith
    have n51 : ¬(t5 - 60 < t1) := by linarith
    have n52 : ¬(t5 - 60 < t2) := by linarith
    have n53 : ¬(t5 - 60 < t3) := by linarith
    have h1 : rate_limit_allow 3 60 [] key t1 = (RLDecision.allowed, [(key, [t1])]) := by
      simp [rate_limit_allow, dictSet, List.lookup]
    have h2 : rate_limit_allow 3 60 [(key, [t1])] key t2 =
        (RLDecision.allowed, [(key, [t1, t2])]) := by
      simp [rate_limit_allow, dictSet, List.lookup, List.filter, k21]
    have h3 : rate_limit_allow 3 60 [(key, [t1, t2])] key t3 =
        (RLDecision.allowed, [(key, [t1, t2, t3])]) := by
      simp [rate_limit_allow, dictSet, List.lookup, List.filter, k31, k32]
    have h4 : rate_limit_allow 3 60 [(key, [t1, t2, t3])] key t4 =
        (RLDecision.denied 60, [(key, [t1, t2, t3])]) := by
      simp [rate_limit_allow, dictSet, List.lookup, List.filter, k41, k42, k43]
    have h5 : rate_limit_allow 3 60 [(key, [t1, t2, t3])] key t5 =
        (RLDecision.allowed, [(key, [t5])]) := by
      simp [rate_limit_allow, dictSet, List.lookup, List.filter, n51, n52, n53]
    rw [h1, h2, h3, h4, h5]
    exact ⟨rfl, rfl, rfl, rfl, rfl⟩

/-- Witness for C5: the four-then-deny scenario at concrete times
`0, 0, 0, 0` with a fifth call at `60`. -/
theorem C5_rate_limit_behavior_witness :
    ((0 : ℚ) ≤ 0) ∧ ((0 : ℚ) < 0 + 60) ∧ ((0 : ℚ) + 60 ≤ 60) ∧
    ((rate_limit_allow 3 60 [] (("k").data) 0).1 = RLDecision.allowed ∧
      (rate_limit_allow 3 60 (rate_limit_allow 3 60 [] (("k").data) 0).2
        (("k").data) 0).1 = RLDecision.allowed ∧
      (rate_limit_allow 3 60 (rate_limit_allow 3 60 (rate_limit_allow 3 60 []
        (("k").data) 0).2 (("k").data) 0).2 (("k").data) 0).1 = RLDecision.allowed ∧
      (rate_limit_allow 3 60 (rate_limit_allow 3 60 (rate_limit_allow 3 60
        (rate_limit_allow 3 60 [] (("k").data) 0).2 (("k").data) 0).2
        (("k").data) 0).2 (("k").data) 0).1 = RLDecision.denied 60 ∧
      (rate_limit_allow 3 60 (rate_limit_allow 3 60 (rate_limit_allow 3 60
        (rate_limit_allow 3 60 (rate_limit_allow 3 60 [] (("k").data) 0).2
        (("k").data) 0).2 (("k").data) 0).2 (("k").data) 0).2 (("k").data) 60).1 =
        RLDecision.allowed) :=
  ⟨by simp, by simp, by simp,
    C5_rate_limit_behavior.2 (("k").data) 0 0 0 0 60 (by simp) (by simp) (by simp)
      (by simp) (by simp)⟩

theorem rl_step_bound (m : Nat) (w : ℚ) (st : RLState) (k q : List Char) (now : ℚ)
    (hpre : ((List.lookup q st).getD []).length ≤ m) :
    ((List.lookup q (rate_limit_allow m w st k now).2).getD []).length ≤ m := by
  by_cases hq : (q == k) = true
  · have hqe : q = k := eq_of_beq hq
    subst hqe
    by_cases hc : m ≤ (((List.lookup q st).getD []).filter (fun ts => now - w < ts)).length
    · simp only [rate_limit_allow]
      rw [if_pos hc]
      simp only [lookup_dictSet, Option.getD_some]
      exact le_trans (List.length_filter_le _ _) hpre
    · simp only [rate_limit_allow]
      rw [if_neg hc]
      simp only [lookup_dictSet, Option.getD_some, List.length_append,
        List.length_singleton]
      omega
  · have hnq : (q == k) = false := by
      cases hx : (q == k)
      · rfl
      · exact absurd hx hq
    by_cases hc : m ≤ (((List.lookup k st).getD []).filter (fun ts => now - w < ts)).length
    · simp only [rate_limit_allow]
      rw [if_pos hc]
      simp only [lookup_dictSet_ne _ _ _ _ hnq]
      exact hpre
    · simp only [rate_limit_allow]
      rw [if_neg hc]
      simp only [lookup_dictSet_ne _ _ _ _ hnq]
      exact hpre

theorem rl_run_bound (m : Nat) (w : ℚ) : ∀ (calls : List (List Char × ℚ)) (st : RLState),
    (∀ q, ((List.lookup q st).getD []).length ≤ m) →
    ∀ q, ((List.lookup q (rate_limit_run m w st calls)).getD []).length ≤ m
  | [], _, hpre, q => hpre q
  | (ck, t) :: calls, st, hpre, q =>
      rl_run_bound m w calls _ (fun q2 => rl_step_bound m w st ck q2 t (hpre q2)) q

/-- C10: after any `allow` call the touched key's stored list holds only
timestamps strictly inside the trailing window; any sequence of calls
from the empty map keeps every key's list at length at most
`max_requests`; and a denied call stores exactly the purged list,
recording nothing. -/
theorem C10_rate_limit_invariant :
    (∀ (m : Nat) (w : ℚ) (st : RLState) (k : List Char) (now : ℚ), 0 < w →
      ∀ ts ∈ (List.lookup k (rate_limit_allow m w st k now).2).getD [], now - w < ts) ∧
    (∀ (m : Nat) (w : ℚ) (calls : List (List Char × ℚ)) (k : List Char),
      ((List.lookup k (rate_limit_run m w [] calls)).getD []).length ≤ m) ∧
    (∀ (m : Nat) (w : ℚ) (st : RLState) (k : List Char) (now : ℚ),
      (rate_limit_allow m w st k now).1 = RLDecision.denied w →
      (rate_limit_allow m w st k now).2 =
        dictSet st k (((List.lookup k st).getD []).filter (fun ts => now - w < ts))) := by
  refine ⟨?_, ?_, ?_⟩
  · intro m w st k now hw ts hts
    by_cases hc : m ≤ (((List.lookup k st).getD []).filter (fun ts => now - w < ts)).length
    · simp only [rate_limit_allow] at hts
      rw [if_pos hc] at hts
      simp only [lookup_dictSet, Option.getD_some] at hts
      have hmem := (List.mem_filter.mp hts).2
      simpa using hmem
    · simp only [rate_limit_allow] at hts
      rw [if_neg hc] at hts
      simp only [lookup_dictSet, Option.getD_some, List.mem_append,
        List.mem_singleton] at hts
      rcases hts with hmem | rfl
      · have hmem2 := (List.mem_filter.mp hmem).2
        simpa using hmem2
      · linarith
  · intro m w calls k
    exact rl_run_bound m w calls [] (fun q => by simp [List.lookup]) k
  · intro m w st k now hden
    by_cases hc : m ≤ (((List.lookup k st).getD []).filter (fun ts => now - w < ts)).length
    · simp only [rate_limit_allow]
      rw [if_pos hc]
    · simp only [rate_limit_allow] at hden
      rw [if_neg hc] at hden
      exact absurd hden (by simp)

/-- Witness for C10: the invariants evaluated on a concrete run — a
window of 60 seconds, one key, and a denying configuration with
`max_requests = 0`. -/
theorem C10_rate_limit_invariant_witness :
    ((0 : ℚ) < 60) ∧
    (∀ ts ∈ (List.lookup (("k").data)
        (rate_limit_allow 1 60 [] (("k").data) 0).2).getD [], (0 : ℚ) - 60 < ts) ∧
    ((List.lookup (("k").data)
        (rate_limit_run 2 60 [] [((("k").data), 0), ((("k").data), 0),
          ((("k").data), 0)])).getD []).length ≤ 2 ∧
    ((rate_limit_allow 0 60 [(("k").data, [(5 : ℚ)])] (("k").data) 6).1 =
      RLDecision.denied 60) ∧
    (rate_limit_allow 0 60 [(("k").data, [(5 : ℚ)])] (("k").data) 6).2 =
      dictSet [(("k").data, [(5 : ℚ)])] (("k").data)
        (((List.lookup (("k").data) [(("k").data, [(5 : ℚ)])]).getD []).filter
          (fun ts => (6 : ℚ) - 60 < ts)) :=
  ⟨by simp,
    C10_rate_limit_invariant.1 1 60 [] (("k").data) 0 (by simp),
    C10_rate_limit_invariant.2.1 2 60 [((("k").data), 0), ((("k").data), 0),
      ((("k").data), 0)] (("k").data),
    by simp [rate_limit_allow],
    C10_rate_limit_invariant.2.2 0 60 [(("k").data, [(5 : ℚ)])] (("k").data) 6
      (by simp [rate_limit_allow])⟩

theorem revoke_memKeys (st : ApiKeyState) (key : List Char) :
    (revoke_api_key st key).memKeys = st.memKeys := by
  unfold revoke_api_key
  split <;> rfl

theorem setInactive_apiKey (key : List Char) (r : DbKeyRow) :
    ((if r.apiKey == key then { r with isActive := false } else r) : DbKeyRow).apiKey =
      r.apiKey := by
  by_cases h : r.apiKey = key
  · simp [h]
  · simp [h]

theorem setInactive_idem (key : List Char) (r : DbKeyRow) :
    ((fun r : DbKeyRow => if r.apiKey == key then { r with isActive := false } else r) ∘
      (fun r : DbKeyRow => if r.apiKey == key then { r with isActive := false } else r)) r =
    (fun r : DbKeyRow => if r.apiKey == key then { r with isActive := false } else r) r := by
  by_cases h : r.apiKey = key
  · simp [Function.comp, h]
  · simp [Function.comp, h]

theorem get_after_revoke (st : ApiKeyState) (key : List Char) :
    get_api_key_from_db (revoke_api_key st key) key = none := by
  obtain ⟨mem, db⟩ := st
  cases db with
  | none => rfl
  | some rows =>
      show (match (rows.map (fun r =>
          if r.apiKey == key then { r with isActive := false } else r)).find?
            (fun r => r.apiKey == key) with
        | some row => if row.isActive then some row else none
        | none => none) = none
      rw [List.find?_map]
      have hcomp : ((fun r : DbKeyRow => r.apiKey == key) ∘
          (fun r : DbKeyRow =>
            if r.apiKey == key then { r with isActive := false } else r)) =
          (fun r : DbKeyRow => r.apiKey == key) := by
        funext r
        by_cases h : r.apiKey = key
        · simp [Function.comp, h]
        · simp [Function.comp, h]
      rw [hcomp]
      cases hf : rows.find? (fun r => r.apiKey == key) with
      | none => rfl
      | some row =>
          have hp := List.find?_some hf
          have he : row.apiKey = key := by simpa using hp
          simp [he]

/-- C2 (amended): the unknown / inactive / expired failure cases of
`validate_api_key` hold only on the durable-store path, i.e. for keys
absent from the in-memory `API_KEYS` dict; a key present in the
in-memory dict validates unconditionally. `revoke` (modelled from the
spec) clears `is_active` in the durable store and is idempotent, and
after a revoke validation fails permanently provided the key is not in
the in-memory dict. -/
theorem C2_api_key_lifecycle :
    (∀ (st : ApiKeyState) (now : Int) (key : List Char),
      st.memKeys.lookup key = none → get_api_key_from_db st key = none →
      (validate_api_key st now (some key)).1 = none) ∧
    (∀ (st : ApiKeyState) (now : Int) (key : List Char) (kd : DbKeyRow) (e : Int),
      st.memKeys.lookup key = none → get_api_key_from_db st key = some kd →
      kd.expiresAt = some e → now > e →
      (validate_api_key st now (some key)).1 = none) ∧
    (∀ (st : ApiKeyState) (now : Int) (rows : List DbKeyRow) (key : List Char)
        (row : DbKeyRow),
      st.memKeys.lookup key = none → st.db = some rows →
      rows.find? (fun r => r.apiKey == key) = some row → row.isActive = false →
      (validate_api_key st now (some key)).1 = none) ∧
    (∀ (st : ApiKeyState) (now : Int) (key : List Char) (kd : MemKeyRecord),
      key ≠ [] → st.memKeys.lookup key = some kd →
      (validate_api_key st now (some key)).1 =
        some { user := some (PVal.str kd.user), roles := PVal.arr kd.roles,
               authenticated := true }) ∧
    (∀ (st : ApiKeyState) (key : List Char),
      revoke_api_key (revoke_api_key st key) key = revoke_api_key st key) ∧
    (∀ (st : ApiKeyState) (rows : List DbKeyRow) (key : List Char) (row : DbKeyRow),
      (revoke_api_key st key).db = some rows → row ∈ rows →
      (row.apiKey == key) = true → row.isActive = false) ∧
    (∀ (st : ApiKeyState) (now : Int) (key : List Char),
      st.memKeys.lookup key = none →
      (validate_api_key (revoke_api_key st key) now (some key)).1 = none) := by
  refine ⟨?_, ?_, ?_, ?_, ?_, ?_, ?_⟩
  · intro st now key hmem hdb
    by_cases hk : key = []
    · simp [validate_api_key, hk]
    · simp [validate_api_key, hk, hmem, hdb]
  · intro st now key kd e hmem hdb hexp hlate
    by_cases hk : key = []
    · simp [validate_api_key, hk]
    · simp [validate_api_key, hk, hmem, hdb, hexp, hlate]
  · intro st now rows key row hmem hdb hfind hinact
    by_cases hk : key = []
    · simp [validate_api_key, hk]
    · have hget : get_api_key_from_db st key = none := by
        unfold get_api_key_from_db
        rw [hdb]
        simp [hfind, hinact]
      simp [validate_api_key, hk, hmem, hget]
  · intro st now key kd hk hmem
    simp [validate_api_key, hk, hmem]
  · intro st key
    obtain ⟨mem, db⟩ := st
    cases db with
    | none => rfl
    | some rows =>
        show ApiKeyState.mk mem (some (((rows.map (fun r =>
            if r.apiKey == key then { r with isActive := false } else r))).map (fun r =>
            if r.apiKey == key then { r with isActive := false } else r))) =
          ApiKeyState.mk mem (some (rows.map (fun r =>
            if r.apiKey == key then { r with isActive := false } else r)))
        rw [List.map_map]
        have hmaps : ∀ r ∈ rows, ((fun r : DbKeyRow =>
            if r.apiKey == key then { r with isActive := false } else r) ∘
            (fun r : DbKeyRow =>
              if r.apiKey == key then { r with isActive := false } else r)) r =
            (fun r : DbKeyRow =>
              if r.apiKey == key then { r with isActive := false } else r) r := by
          intro r _
          by_cases h : r.apiKey = key
          · simp [Function.comp, h]
          · simp [Function.comp, h]
        rw [List.map_congr_left hmaps]
  · intro st rows key row hdb hmem hkey
    obtain ⟨mem, db⟩ := st
    cases db with
    | none => simp [revoke_api_key] at hdb
    | some rows0 =>
        have hdb2 : (rows0.map (fun r : DbKeyRow =>
            if r.apiKey == key then { r with isActive := false } else r)) = rows := by
          simpa [revoke_api_key] using hdb
        rw [← hdb2] at hmem
        rcases List.mem_map.mp hmem with ⟨r0, _hr0, rfl⟩
        by_cases h : r0.apiKey = key
        · simp [h]
        · rw [if_neg (by simpa using h)] at hkey ⊢
          exact absurd (by simpa using hkey) h
  · intro st now key hmem
    by_cases hk : key = []
    · simp [validate_api_key, hk]
    · have hm2 : (revoke_api_key st key).memKeys.lookup key = none := by
        rw [revoke_memKeys]
        exact hmem
      simp [validate_api_key, hk, hm2, get_after_revoke]

/-- Counterexample to C2 as stated: a key registered while the durable
store is configured, then revoked (its stored row is `is_active=false`),
still validates successfully afterwards — `validate_api_key` hits the
in-memory dict first and that path never consults `is_active`. -/
theorem C2_counterexample :
    (validate_api_key
        (revoke_api_key
          (register_api_key ({ memKeys := [], db := some [] }) 100 (("k1").data)
            (("alice").data) none)
          (("k1").data))
        200 (some (("k1").data))).1 =
      some { user := some (PVal.str (("alice").data)),
             roles := PVal.arr [("user").data], authenticated := true } ∧
    (revoke_api_key
        (register_api_key ({ memKeys := [], db := some [] }) 100 (("k1").data)
          (("alice").data) none)
        (("k1").data)).db =
      some [{ apiKey := ("k1").data, userName := ("alice").data,
              roles := [("user").data], isActive := false, expiresAt := none,
              lastUsedAt := none }] :=
  ⟨by decide, by decide⟩

/-- Witness for C2: the amended failure and success cases evaluated on
concrete states — an unknown key fails, and a revoked key absent from
the in-memory dict fails. -/
theorem C2_api_key_lifecycle_witness :
    (List.lookup (("k").data) (([] : List (List Char × MemKeyRecord))) = none) ∧
    (get_api_key_from_db ({ memKeys := [], db := none }) (("k").data) = none) ∧
    (validate_api_key ({ memKeys := [], db := none }) 0 (some (("k").data))).1 = none ∧
    (validate_api_key
        (revoke_api_key
          ({ memKeys := [],
             db := some [{ apiKey := ("k").data, userName := ("u").data,
                           roles := [("user").data], isActive := true,
                           expiresAt := none, lastUsedAt := none }] })
          (("k").data))
        0 (some (("k").data))).1 = none :=
  ⟨by decide, by decide,
    C2_api_key_lifecycle.1 ({ memKeys := [], db := none }) 0 (("k").data)
      (by decide) (by decide),
    C2_api_key_lifecycle.2.2.2.2.2.2
      ({ memKeys := [],
         db := some [{ apiKey := ("k").data, userName := ("u").data,
                       roles := [("user").data], isActive := true,
                       expiresAt := none, lastUsedAt := none }] })
      0 (("k").data) (by decide)⟩

/-- C8 (amended): registered pairs authenticate and return exactly the
registered roles; any other pair fails closed with the same response
shape (`None`) whether the user is unknown or the password wrong — but
the two failures are not in the same timing class: the unknown-user path
performs no bcrypt check while the wrong-password path performs one. -/
theorem C8_authenticate :
    (∀ (checkpw : List Char → List Char → Bool)
        (store : List (List Char × UserRecord)) (u p : List Char) (r : UserRecord),
      store.lookup u = some r → checkpw p r.passwordHash = true →
      authenticate_user checkpw store u p = some (u, r.roles)) ∧
    (∀ (checkpw : List Char → List Char → Bool)
        (store : List (List Char × UserRecord)) (u p : List Char),
      store.lookup u = none →
      authenticate_user checkpw store u p = none ∧
      authenticate_user_checkpw_calls store u = 0) ∧
    (∀ (checkpw : List Char → List Char → Bool)
        (store : List (List Char × UserRecord)) (u p : List Char) (r : UserRecord),
      store.lookup u = some r → checkpw p r.passwordHash = false →
      authenticate_user checkpw store u p = none ∧
      authenticate_user_checkpw_calls store u = 1) ∧
    (∀ (hashpw : List Char → List Char) (checkpw : List Char → List Char → Bool),
      (∀ pw, checkpw pw (hashpw pw) = true) →
      authenticate_user checkpw (_init_demo_users hashpw) (("admin").data)
          (("admin123").data) =
        some ((("admin").data), [("admin").data, ("user").data]) ∧
      authenticate_user checkpw (_init_demo_users hashpw) (("user").data)
          (("user123").data) = some ((("user").data), [("user").data])) := by
  refine ⟨?_, ?_, ?_, ?_⟩
  · intro checkpw store u p r hl hc
    simp [authenticate_user, get_user, hl, hc]
  · intro checkpw store u p hl
    exact ⟨by simp [authenticate_user, get_user, hl],
      by simp [authenticate_user_checkpw_calls, get_user, hl]⟩
  · intro checkpw store u p r hl hc
    exact ⟨by simp [authenticate_user, get_user, hl, hc],
      by simp [authenticate_user_checkpw_calls, get_user, hl]⟩
  · intro hashpw checkpw hok
    constructor
    · have hl : (_init_demo_users hashpw).lookup (("admin").data) =
          some { passwordHash := hashpw (("admin123").data),
                 roles := [("admin").data, ("user").data] } := by
        simp [_init_demo_users, List.lookup]
      simp [authenticate_user, get_user, hl, hok (("admin123").data)]
    · have hl : (_init_demo_users hashpw).lookup (("user").data) =
          some { passwordHash := hashpw (("user123").data),
                 roles := [("user").data] } := by
        simp [_init_demo_users, List.lookup,
          show ((("user").data == ("admin").data)) = false from by decide]
      simp [authenticate_user, get_user, hl, hok (("user123").data)]

/-- Counterexample to C8 as stated: with the seeded demo store, an
unknown user and a known user with a wrong password both return `None`
(same response shape), but the unknown-user failure performs zero bcrypt
checks while the wrong-password failure performs one — the two failures
are not in the same timing class. -/
theorem C8_counterexample :
    authenticate_user (fun p h => h == 'h' :: p) (_init_demo_users (fun p => 'h' :: p))
        (("ghost").data) (("pw").data) = none ∧
    authenticate_user (fun p h => h == 'h' :: p) (_init_demo_users (fun p => 'h' :: p))
        (("admin").data) (("wrong").data) = none ∧
    authenticate_user_checkpw_calls (_init_demo_users (fun p => 'h' :: p))
        (("ghost").data) = 0 ∧
    authenticate_user_checkpw_calls (_init_demo_users (fun p => 'h' :: p))
        (("admin").data) = 1 ∧
    (0 : Nat) ≠ 1 :=
  ⟨by decide, by decide, by decide, by decide, by decide⟩

/-- Witness for C8: the amended statement evaluated at a concrete
hashing scheme and the seeded demo store. -/
theorem C8_authenticate_witness :
    (List.lookup (("ghost").data) (_init_demo_users (fun p => 'h' :: p)) = none) ∧
    (authenticate_user (fun p h => h == 'h' :: p)
        (_init_demo_users (fun p => 'h' :: p)) (("ghost").data) (("pw").data) = none ∧
      authenticate_user_checkpw_calls (_init_demo_users (fun p => 'h' :: p))
        (("ghost").data) = 0) ∧
    (authenticate_user (fun p h => h == 'h' :: p)
        (_init_demo_users (fun p => 'h' :: p)) (("admin").data) (("admin123").data) =
      some ((("admin").data), [("admin").data, ("user").data])) :=
  ⟨by decide,
    C8_authenticate.2.1 (fun p h => h == 'h' :: p) (_init_demo_users (fun p => 'h' :: p))
      (("ghost").data) (("pw").data) (by decide),
    (C8_authenticate.2.2.2 (fun p => 'h' :: p) (fun p h => h == 'h' :: p)
      (fun pw => beq_self_eq_true (('h' :: pw)))).1⟩
